import Mathlib

/-!
Speculation-control header, Ethernet header handling, linear device-mapper target.

A shallow embedding of `arch/x86/include/asm/nospec-branch.h` (the RSB
stuffing loop, the retpoline macros, their patch sites, the mitigation
enumerations), of `net/ethernet/eth.c` (`eth_header`, `eth_type_trans`,
`eth_change_mtu`) and of `drivers/md/dm-linear.c` (`linear_prepare_ioctl`).

The assembler macros are embedded as lists of instructions of a small x86
machine.  Code addresses count instructions: the macro is assembled at an
address `base`, its `i`-th instruction sits at `base + i`, and a label is the
address of the instruction that follows it.  Data values are machine words,
natural numbers below `2 ^ bits` where `bits` is `BITS_PER_LONG`.
-/

namespace NospecBranch

/-! ## The machine -/

/-- The general registers an operand of the macros can name (`%_ASM_SP` is `rsp`). -/
inductive Reg where
  | rax | rcx | rdx | rbx | rsp | rbp | rsi | rdi
  | r8 | r9 | r10 | r11 | r12 | r13 | r14 | r15
  deriving DecidableEq, Repr

/-- The instructions that occur in the macros of `nospec-branch.h`. -/
inductive Instr where
  /-- Instruction `mov $imm, dst` -/
  | mov_imm (imm : Nat) (dst : Reg)
  /-- Instruction `mov src, (ptr)`: store a register at the address held in `ptr` -/
  | mov_store (src : Reg) (ptr : Reg)
  /-- Instruction `call target` -/
  | call (target : Nat)
  /-- Instruction `call *r` -/
  | call_ind (r : Reg)
  /-- Instruction `jmp target` -/
  | jmp (target : Nat)
  /-- Instruction `jmp *r` -/
  | jmp_ind (r : Reg)
  /-- Instruction `jnz target` -/
  | jnz (target : Nat)
  /-- Instruction `dec r` -/
  | dec (r : Reg)
  /-- Instruction `add $imm, dst` -/
  | add_imm (imm : Nat) (dst : Reg)
  | ret
  | pause
  | lfence
  | nop
  /-- A no-op instruction that is `len` bytes long (`ASM_NOP3`, `ASM_NOP8`) -/
  | nopl (len : Nat)
  deriving DecidableEq, Repr

/-- Architectural state: program counter, general registers, the zero flag and
memory (one machine word per address used as a stack slot). -/
structure Machine where
  pc : Nat
  regs : Reg → Nat
  zf : Bool
  mem : Nat → Nat

/-- Addition of machine words, modulo `2 ^ bits`. -/
def wadd (bits a b : Nat) : Nat := (a + b) % 2 ^ bits

/-- Subtraction of machine words, modulo `2 ^ bits`. -/
def wsub (bits a b : Nat) : Nat := (a + (2 ^ bits - b % 2 ^ bits)) % 2 ^ bits

/-- Write register `r`. -/
def setReg (f : Reg → Nat) (r : Reg) (v : Nat) : Reg → Nat :=
  fun x => if x = r then v else f x

/-- Write the memory word at address `a`. -/
def setMem (m : Nat → Nat) (a v : Nat) : Nat → Nat :=
  fun x => if x = a then v else m x

/-- Push a word: the stack pointer goes down by one word (`bits / 8` bytes)
and the word is stored at the new top of stack. -/
def push (bits : Nat) (v : Nat) (s : Machine) : Machine :=
  let sp1 := wsub bits (s.regs Reg.rsp) (bits / 8)
  { s with regs := setReg s.regs Reg.rsp sp1, mem := setMem s.mem sp1 v }

/-- Effect of one instruction. -/
def exec (bits : Nat) (i : Instr) (s : Machine) : Machine :=
  match i with
  | Instr.mov_imm imm dst =>
      { s with pc := s.pc + 1, regs := setReg s.regs dst (imm % 2 ^ bits) }
  | Instr.mov_store src ptr =>
      { s with pc := s.pc + 1, mem := setMem s.mem (s.regs ptr) (s.regs src) }
  | Instr.call target =>
      { push bits (s.pc + 1) s with pc := target }
  | Instr.call_ind r =>
      { push bits (s.pc + 1) s with pc := s.regs r }
  | Instr.jmp target => { s with pc := target }
  | Instr.jmp_ind r => { s with pc := s.regs r }
  | Instr.jnz target => { s with pc := if s.zf then s.pc + 1 else target }
  | Instr.dec r =>
      let v := wsub bits (s.regs r) 1
      { s with pc := s.pc + 1, regs := setReg s.regs r v, zf := decide (v = 0) }
  | Instr.add_imm imm dst =>
      let v := wadd bits (s.regs dst) imm
      { s with pc := s.pc + 1, regs := setReg s.regs dst v, zf := decide (v = 0) }
  | Instr.ret =>
      { s with pc := s.mem (s.regs Reg.rsp),
               regs := setReg s.regs Reg.rsp (wadd bits (s.regs Reg.rsp) (bits / 8)) }
  | Instr.pause => { s with pc := s.pc + 1 }
  | Instr.lfence => { s with pc := s.pc + 1 }
  | Instr.nop => { s with pc := s.pc + 1 }
  | Instr.nopl _ => { s with pc := s.pc + 1 }

/-- The instruction at address `pc` of a code sequence assembled at `base`. -/
def fetch (base : Nat) (code : List Instr) (pc : Nat) : Option Instr :=
  if base ≤ pc then code.get? (pc - base) else none

/-- One step of the code sequence; `none` once control is outside it. -/
def step (bits base : Nat) (code : List Instr) (s : Machine) : Option Machine :=
  (fetch base code s.pc).map (fun i => exec bits i s)

/-- Exactly `n` steps inside the code sequence. -/
def run (bits base : Nat) (code : List Instr) : Nat → Machine → Option Machine
  | 0, s => some s
  | n + 1, s => (step bits base code s).bind (run bits base code n)

/-! ## `__FILL_RETURN_BUFFER` and `fill_RSB` -/

/-- `RSB_CLEAR_LOOPS`: to forcibly overwrite all entries. -/
def RSB_CLEAR_LOOPS : Nat := 32

/-- `RSB_FILL_LOOPS`: to avoid underflow. -/
def RSB_FILL_LOOPS : Nat := 16

/-- The macro `__FILL_RETURN_BUFFER(reg, nr, sp)` assembled at `base`.
Labels: `771` is `base + 1`, `773` is `base + 2`, `772` is `base + 5`,
`775` is `base + 6`, `774` is `base + 9`. -/
def __FILL_RETURN_BUFFER (bits base : Nat) (reg : Reg) (nr : Nat) (sp : Reg) : List Instr :=
  [ Instr.mov_imm (nr / 2) reg,            -- mov $(nr/2), reg
    Instr.call (base + 5),                 -- 771: call 772f
    Instr.pause,                           -- 773: pause
    Instr.lfence,                          --      lfence
    Instr.jmp (base + 2),                  --      jmp 773b
    Instr.call (base + 9),                 -- 772: call 774f
    Instr.pause,                           -- 775: pause
    Instr.lfence,                          --      lfence
    Instr.jmp (base + 6),                  --      jmp 775b
    Instr.dec reg,                         -- 774: dec reg
    Instr.jnz (base + 1),                  --      jnz 771b
    Instr.add_imm ((bits / 8) * nr) sp ]   -- add $(BITS_PER_LONG/8) * nr, sp

/-- The body of `fill_RSB`: the macro with `nr = RSB_CLEAR_LOOPS`, the counter
in the register the compiler chose for `loops` and `sp` bound to `_ASM_SP`. -/
def fill_RSB (bits base : Nat) (loops : Reg) : List Instr :=
  __FILL_RETURN_BUFFER bits base loops RSB_CLEAR_LOOPS Reg.rsp

/-- A machine state used to evaluate the macros on a concrete input: every
register, the stack pointer included, holds `0x1000`. -/
def demoMachine (pc : Nat) : Machine :=
  { pc := pc, regs := fun _ => 0x1000, zf := false, mem := fun _ => 0 }

/-! ## Retpoline macros -/

/-- Modelled from the spec: `STATIC_JUMP target, key` of `asm/jump_label.h` is
not among the sources.  It is the lightweight branch-or-flag check of the
trampoline: a jump to `target` while the static key is enabled and a no-op
(fall through to the next instruction) while it is disabled. -/
def STATIC_JUMP (target : Nat) (key : Bool) : Instr :=
  if key then Instr.jmp target else Instr.nop

/-- Modelled from the spec: `altinstruction_entry` of `asm/alternative-asm.h`
and the pass that applies it are not among the sources.  When the feature is
present the default span is replaced by the replacement span and the remainder
is padded with no-ops; otherwise the default span stays. -/
def ALTERNATIVE (feature : Bool) (orig repl : List Instr) : List Instr :=
  if feature then repl ++ List.replicate (orig.length - repl.length) Instr.nop else orig

/-- The macro `RETPOLINE_JMP reg` assembled at `base`.
Labels: `.Lspec_trap_` is `base + 1`, `.Ldo_rop_` is `base + 4`. -/
def RETPOLINE_JMP (base : Nat) (reg : Reg) : List Instr :=
  [ Instr.call (base + 4),                 -- call .Ldo_rop_
    Instr.pause,                           -- .Lspec_trap_: pause
    Instr.lfence,                          --      lfence
    Instr.jmp (base + 1),                  --      jmp .Lspec_trap_
    Instr.mov_store reg Reg.rsp,           -- .Ldo_rop_: mov reg, (%_ASM_SP)
    Instr.ret ]                            --      ret

/-- The macro `RETPOLINE_CALL reg` assembled at `base`.
Labels: `.Ldo_retpoline_jmp_` is `base + 1`, `.Ldo_call_` is `base + 7`. -/
def RETPOLINE_CALL (base : Nat) (reg : Reg) : List Instr :=
  [ Instr.jmp (base + 7) ]                 -- jmp .Ldo_call_
  ++ RETPOLINE_JMP (base + 1) reg          -- .Ldo_retpoline_jmp_: RETPOLINE_JMP reg
  ++ [ Instr.call (base + 1) ]             -- .Ldo_call_: call .Ldo_retpoline_jmp_

/-- The macro `__JMP_NOSPEC reg` assembled at `base`; `amd` is
`X86_FEATURE_RETPOLINE_AMD`. -/
def __JMP_NOSPEC (base : Nat) (amd : Bool) (reg : Reg) : List Instr :=
  ALTERNATIVE amd (RETPOLINE_JMP base reg) [ Instr.lfence, Instr.jmp_ind reg ]

/-- The macro `__CALL_NOSPEC reg` assembled at `base`; `amd` is
`X86_FEATURE_RETPOLINE_AMD`. -/
def __CALL_NOSPEC (base : Nat) (amd : Bool) (reg : Reg) : List Instr :=
  ALTERNATIVE amd (RETPOLINE_CALL base reg) [ Instr.lfence, Instr.call_ind reg ]

/-- The macro `JMP_NOSPEC reg` assembled at `base`; `key` is the state of
`retp_enabled_key`.  Label `.Lretp_` is `base + 2`. -/
def JMP_NOSPEC (base : Nat) (key amd : Bool) (reg : Reg) : List Instr :=
  [ STATIC_JUMP (base + 2) key,            -- STATIC_JUMP .Lretp_, retp_enabled_key
    Instr.jmp_ind reg ]                    -- jmp *reg
  ++ __JMP_NOSPEC (base + 2) amd reg       -- .Lretp_: __JMP_NOSPEC reg

/-- The macro `CALL_NOSPEC reg` assembled at `base`.  Label `.Lretp_` is
`base + 3` and `.Ldone_`, the address right after the macro, is `base + 11`. -/
def CALL_NOSPEC (base : Nat) (key amd : Bool) (reg : Reg) : List Instr :=
  [ STATIC_JUMP (base + 3) key,            -- STATIC_JUMP .Lretp_, retp_enabled_key
    Instr.call_ind reg,                    -- call *reg
    Instr.jmp (base + 11) ]                -- jmp .Ldone_
  ++ __CALL_NOSPEC (base + 3) amd reg      -- .Lretp_: __CALL_NOSPEC reg

/-! ## Mitigation enumerations -/

/-- The Spectre V2 mitigation variants, in declaration order. -/
inductive spectre_v2_mitigation where
  | SPECTRE_V2_NONE
  | SPECTRE_V2_RETPOLINE_MINIMAL
  | SPECTRE_V2_RETPOLINE_NO_IBPB
  | SPECTRE_V2_RETPOLINE_SKYLAKE
  | SPECTRE_V2_RETPOLINE_UNSAFE_MODULE
  | SPECTRE_V2_RETPOLINE
  | SPECTRE_V2_RETPOLINE_IBRS_USER
  | SPECTRE_V2_IBRS
  | SPECTRE_V2_IBRS_ALWAYS
  | SPECTRE_V2_IBP_DISABLED
  deriving DecidableEq, Repr

/-- The numeric value C gives each enumerator: the first is `0` and each
following one is its predecessor plus one. -/
def spectre_v2_mitigation.val : spectre_v2_mitigation → Nat
  | SPECTRE_V2_NONE => 0
  | SPECTRE_V2_RETPOLINE_MINIMAL => 1
  | SPECTRE_V2_RETPOLINE_NO_IBPB => 2
  | SPECTRE_V2_RETPOLINE_SKYLAKE => 3
  | SPECTRE_V2_RETPOLINE_UNSAFE_MODULE => 4
  | SPECTRE_V2_RETPOLINE => 5
  | SPECTRE_V2_RETPOLINE_IBRS_USER => 6
  | SPECTRE_V2_IBRS => 7
  | SPECTRE_V2_IBRS_ALWAYS => 8
  | SPECTRE_V2_IBP_DISABLED => 9

/-- All ten enumerators of `enum spectre_v2_mitigation`. -/
def spectre_v2_mitigation.all : List spectre_v2_mitigation :=
  [ SPECTRE_V2_NONE, SPECTRE_V2_RETPOLINE_MINIMAL, SPECTRE_V2_RETPOLINE_NO_IBPB,
    SPECTRE_V2_RETPOLINE_SKYLAKE, SPECTRE_V2_RETPOLINE_UNSAFE_MODULE, SPECTRE_V2_RETPOLINE,
    SPECTRE_V2_RETPOLINE_IBRS_USER, SPECTRE_V2_IBRS, SPECTRE_V2_IBRS_ALWAYS,
    SPECTRE_V2_IBP_DISABLED ]

/-- The Speculative Store Bypass disable variants. -/
inductive ssb_mitigation where
  | SPEC_STORE_BYPASS_NONE
  | SPEC_STORE_BYPASS_DISABLE
  | SPEC_STORE_BYPASS_PRCTL
  | SPEC_STORE_BYPASS_SECCOMP
  deriving DecidableEq, Repr

/-- Outcome of a per-task store-bypass request. -/
inductive ssb_result where
  | accepted
  | policy_violation
  deriving DecidableEq, Repr

/-- Modelled from the spec: the per-task store-bypass transition function is
not among the sources (only `enum ssb_mitigation` is).  A running context may
request `PrctlControlled` only from `None`; from any other state the request
is rejected with a policy-violation indication and the state stays. -/
def ssb_request_prctl (state : ssb_mitigation) : ssb_result × ssb_mitigation :=
  match state with
  | ssb_mitigation.SPEC_STORE_BYPASS_NONE =>
      (ssb_result.accepted, ssb_mitigation.SPEC_STORE_BYPASS_PRCTL)
  | other => (ssb_result.policy_violation, other)

/-- Modelled from the spec: a sandboxing policy may force `SeccompForced` from
any state except `Disable`, which is terminal. -/
def ssb_force_seccomp (state : ssb_mitigation) : ssb_result × ssb_mitigation :=
  match state with
  | ssb_mitigation.SPEC_STORE_BYPASS_DISABLE =>
      (ssb_result.policy_violation, ssb_mitigation.SPEC_STORE_BYPASS_DISABLE)
  | _ => (ssb_result.accepted, ssb_mitigation.SPEC_STORE_BYPASS_SECCOMP)

/-! ## Speculation-control baseline -/

/-- Bitwise complement of a `u64`. -/
def not64 (x : Nat) : Nat := (2 ^ 64 - 1) ^^^ (x % 2 ^ 64)

/-- Modelled from the spec: the update of `x86_spec_ctrl_base` is not among
the sources (the header only declares the variable).  `merge_update` clears
the bits of `clear_mask`, sets the bits of `set_mask` and carries every other
bit of the previous value through. -/
def merge_update (base set_mask clear_mask : Nat) : Nat :=
  ((base &&& not64 clear_mask) ||| set_mask) % 2 ^ 64

end NospecBranch

namespace Eth

/-! ## Ethernet header handling (`net/ethernet/eth.c`) -/

/-- Modelled from the spec: `ETH_ALEN` of `uapi/linux/if_ether.h` is not among
the sources; an Ethernet address is six bytes. -/
def ETH_ALEN : Nat := 6

/-- Modelled from the spec: `ETH_HLEN` of `uapi/linux/if_ether.h` is not among
the sources; the Ethernet header is 14 bytes: `h_dest` at offset 0, `h_source`
at offset 6 and the two bytes of `h_proto` at offset 12. -/
def ETH_HLEN : Nat := 14

/-- Constants of headers that are not among the sources (`uapi/linux/if_ether.h`,
`uapi/linux/if.h`, `uapi/linux/if_packet.h`), taken as parameters. -/
structure Consts where
  ETH_P_802_3 : Nat
  ETH_P_802_2 : Nat
  ETH_P_XDSA : Nat
  IFF_LOOPBACK : Nat
  IFF_NOARP : Nat
  PACKET_BROADCAST : Nat
  PACKET_MULTICAST : Nat
  PACKET_OTHERHOST : Nat

/-- The values the kernel headers give these constants. -/
def linux_consts : Consts :=
  { ETH_P_802_3 := 0x0001, ETH_P_802_2 := 0x0004, ETH_P_XDSA := 0x00F8,
    IFF_LOOPBACK := 0x8, IFF_NOARP := 0x80,
    PACKET_BROADCAST := 1, PACKET_MULTICAST := 2, PACKET_OTHERHOST := 3 }

/-- The fields of `struct net_device` that `eth.c` reads.  An address is the
function giving its bytes; `uses_dsa` is the result of `netdev_uses_dsa(dev)`
and `ndo_ext_change_mtu` tells whether `get_ndo_ext(dev->netdev_ops,
ndo_change_mtu)` is non-NULL, both of which are defined outside the sources;
`mtu` is an `unsigned int`. -/
structure net_device where
  dev_addr : Nat → Nat
  broadcast : Nat → Nat
  flags : Nat
  uses_dsa : Bool
  mtu : Nat := 1500
  ndo_ext_change_mtu : Bool := false

/-- A linear `struct sk_buff`: the bytes of its buffer indexed from `skb->head`,
the offsets of `skb->data` and of the MAC header from `skb->head`, `skb->len`,
`skb->pkt_type` and `skb->dev`. -/
structure sk_buff where
  mem : Nat → Nat
  data : Nat
  len : Nat
  mac_header : Nat
  pkt_type : Nat
  dev : Option net_device

/-- Byte swap of a 16-bit value (`__swab16`). -/
def swab16 (x : Nat) : Nat := (x % 256) * 256 + (x / 256) % 256

/-- Modelled from the spec: `htons` of `linux/byteorder/generic.h` is not
among the sources.  Host to network byte order on little-endian x86: the
argument is converted to 16 bits and its two bytes are swapped. -/
def htons (x : Nat) : Nat := swab16 (x % 2 ^ 16)

/-- Modelled from the spec: `ntohs` of `linux/byteorder/generic.h` is not
among the sources.  Network to host byte order on little-endian x86. -/
def ntohs (x : Nat) : Nat := swab16 (x % 2 ^ 16)

/-- Load of a 16-bit value in host (little-endian) order from bytes `a`, `a + 1`. -/
def load16 (mem : Nat → Nat) (a : Nat) : Nat := mem a % 256 + 256 * (mem (a + 1) % 256)

/-- Store of a 16-bit value in host (little-endian) order to bytes `a`, `a + 1`. -/
def store16 (mem : Nat → Nat) (a v : Nat) : Nat → Nat :=
  fun x => if x = a then v % 256 else if x = a + 1 then (v / 256) % 256 else mem x

/-- Library `memcpy`: copy `n` bytes of `src` to offset `dst`. -/
def memcpy (mem : Nat → Nat) (dst : Nat) (src : Nat → Nat) (n : Nat) : Nat → Nat :=
  fun x => if dst ≤ x ∧ x < dst + n then src (x - dst) else mem x

/-- Library `memset`: set `n` bytes at offset `dst` to `c`. -/
def memset (mem : Nat → Nat) (dst c n : Nat) : Nat → Nat :=
  fun x => if dst ≤ x ∧ x < dst + n then c else mem x

/-- Modelled from the spec: `skb_push` of `linux/skbuff.h` is not among the
sources.  It moves `skb->data` back by `n` and adds `n` to `skb->len`; pushing
past `skb->head` is a kernel panic, here `none`. -/
def skb_push (skb : sk_buff) (n : Nat) : Option sk_buff :=
  if n ≤ skb.data then some { skb with data := skb.data - n, len := skb.len + n } else none

/-- Modelled from the spec: `skb_pull_inline` of `linux/skbuff.h` is not among
the sources.  It removes `n` bytes from the start of the data, and does nothing
when the buffer holds fewer than `n` bytes. -/
def skb_pull_inline (skb : sk_buff) (n : Nat) : sk_buff :=
  if n > skb.len then skb else { skb with data := skb.data + n, len := skb.len - n }

/-- Modelled from the spec: `skb_reset_mac_header` of `linux/skbuff.h` is not
among the sources; it records the current `skb->data` as the MAC header. -/
def skb_reset_mac_header (skb : sk_buff) : sk_buff :=
  { skb with mac_header := skb.data }

/-- Modelled from the spec: `is_multicast_ether_addr` of `linux/etherdevice.h`
is not among the sources; an address is multicast when the low bit of its
first byte is set. -/
def is_multicast_ether_addr (addr : Nat → Nat) : Bool :=
  decide (addr 0 % 2 = 1)

/-- Modelled from the spec: `ether_addr_equal_64bits` of `linux/etherdevice.h`
is not among the sources; it compares the six bytes of two addresses. -/
def ether_addr_equal_64bits (a b : Nat → Nat) : Bool :=
  decide (∀ i < ETH_ALEN, a i = b i)

/-- Modelled from the spec: `eth_proto_is_802_3` of `linux/etherdevice.h` is
not among the sources.  The type field is a protocol type, and not an 802.3
length, when it is at least `ETH_P_802_3_MIN = 0x0600`; on a little-endian CPU
the byte holding the low-order bits is masked off and the values are compared
as `u16`. -/
def eth_proto_is_802_3 (proto : Nat) : Bool :=
  decide (htons 0x0600 ≤ (proto % 2 ^ 16) &&& htons 0xFF00)

/-- The function `eth_header`: create the Ethernet header.  `daddr` and `saddr`
are `none` for a `NULL` pointer.  The result is the return value and the
buffer, `none` when `skb_push` panics. -/
def eth_header (c : Consts) (skb : sk_buff) (dev : net_device) (type : Nat)
    (daddr saddr : Option (Nat → Nat)) (len : Nat) : Option (Int × sk_buff) :=
  match skb_push skb ETH_HLEN with
  | none => none
  | some skb1 =>
    let eth := skb1.data
    -- eth->h_proto
    let proto := if type ≠ c.ETH_P_802_3 ∧ type ≠ c.ETH_P_802_2 then htons type else htons len
    let m1 := store16 skb1.mem (eth + 12) proto
    -- Set the source hardware address.
    let saddr1 := match saddr with
      | none => dev.dev_addr
      | some a => a
    let m2 := memcpy m1 (eth + 6) saddr1 ETH_ALEN
    match daddr with
    | some d => some ((ETH_HLEN : Int), { skb1 with mem := memcpy m2 eth d ETH_ALEN })
    | none =>
      -- Anyway, the loopback-device should never use this function...
      if dev.flags &&& (c.IFF_LOOPBACK ||| c.IFF_NOARP) ≠ 0 then
        some ((ETH_HLEN : Int), { skb1 with mem := memset m2 eth 0 ETH_ALEN })
      else
        some (-(ETH_HLEN : Int), { skb1 with mem := m2 })

/-- The function `eth_type_trans`: determine the packet's protocol ID.  The
result is the returned `__be16` and the updated buffer. -/
def eth_type_trans (c : Consts) (skb : sk_buff) (dev : net_device) : Nat × sk_buff :=
  let skb1 := { skb with dev := some dev }
  let skb2 := skb_reset_mac_header skb1
  let skb3 := skb_pull_inline skb2 ETH_HLEN
  let eth := skb3.mac_header
  let h_dest : Nat → Nat := fun i => skb3.mem (eth + i)
  let h_proto := load16 skb3.mem (eth + 12)
  let skb4 :=
    if is_multicast_ether_addr h_dest then
      if ether_addr_equal_64bits h_dest dev.broadcast then
        { skb3 with pkt_type := c.PACKET_BROADCAST }
      else
        { skb3 with pkt_type := c.PACKET_MULTICAST }
    else if !ether_addr_equal_64bits h_dest dev.dev_addr then
      { skb3 with pkt_type := c.PACKET_OTHERHOST }
    else skb3
  if dev.uses_dsa then (htons c.ETH_P_XDSA, skb4)
  else if eth_proto_is_802_3 h_proto then (h_proto, skb4)
  else if skb4.len ≥ 2 ∧ load16 skb4.mem skb4.data = 0xFFFF then (htons c.ETH_P_802_3, skb4)
  else (htons c.ETH_P_802_2, skb4)

/-- The six bytes of `h_dest` of the header at the start of the data. -/
def h_dest_bytes (skb : sk_buff) : List Nat :=
  (List.range ETH_ALEN).map (fun i => skb.mem (skb.data + i))

/-- Modelled from the spec: `ETH_DATA_LEN` of `uapi/linux/if_ether.h` is not
among the sources; the largest payload of an Ethernet frame is 1500 bytes. -/
def ETH_DATA_LEN : Int := 1500

/-- Modelled from the spec: `EINVAL` of `uapi/asm-generic/errno-base.h` is not
among the sources; the error number of an invalid argument is 22. -/
def EINVAL : Int := 22

/-- Conversion of an `int` to `unsigned int`, as the assignment to `dev->mtu`
does. -/
def to_u32 (x : Int) : Nat := (x % 2 ^ 32).toNat

/-- The function `eth_change_mtu`: set new MTU size.  The result is the return
value and the device; `netdev_warn` only logs. -/
def eth_change_mtu (dev : net_device) (new_mtu : Int) : Int × net_device :=
  if dev.ndo_ext_change_mtu then
    -- netdev_warn(dev, "%s is deprecated\n", __func__)
    (0, { dev with mtu := to_u32 new_mtu })
  else if new_mtu < 68 ∨ new_mtu > ETH_DATA_LEN then
    (-EINVAL, dev)
  else
    (0, { dev with mtu := to_u32 new_mtu })

/-- A device used to evaluate the functions on concrete inputs: address
`02:00:00:00:00:01`, the given flags, no DSA tagging. -/
def demoDev (flags : Nat) : net_device :=
  { dev_addr := fun i => if i = 0 then 2 else if i = 5 then 1 else 0,
    broadcast := fun _ => 0xFF, flags := flags, uses_dsa := false }

/-- A buffer used to evaluate `eth_header` on concrete inputs: 32 bytes of
headroom, all holding `0xAA`, and no data yet. -/
def demoSkb : sk_buff :=
  { mem := fun _ => 0xAA, data := 32, len := 0, mac_header := 0, pkt_type := 0, dev := none }

/-- A received frame used to evaluate `eth_type_trans` on concrete inputs: 60
bytes at offset 32 of the buffer, destination `02:00:00:00:00:01`, the two
bytes `b12`, `b13` in the type field and every other byte zero. -/
def demoFrame (b12 b13 : Nat) : sk_buff :=
  { mem := fun i =>
      if i = 32 then 2 else if i = 37 then 1
      else if i = 44 then b12 else if i = 45 then b13 else 0,
    data := 32, len := 60, mac_header := 0, pkt_type := 0, dev := none }

end Eth

namespace NospecBranch

/-! ## Execution traces -/

/-- The addresses of the instructions executed by the first `n` steps inside
the code sequence, in order; the list ends early once control is outside it. -/
def trace (bits base : Nat) (code : List Instr) : Nat → Machine → List Nat
  | 0, _ => []
  | n + 1, s =>
    match step bits base code s with
    | none => []
    | some t => s.pc :: trace bits base code n t

/-- Whether the instruction at address `pc` of the code sequence is a call. -/
def isCallAt (base : Nat) (code : List Instr) (pc : Nat) : Bool :=
  match fetch base code pc with
  | some (Instr.call _) => true
  | some (Instr.call_ind _) => true
  | _ => false

/-- The addresses of the two speculation traps of `__FILL_RETURN_BUFFER`
assembled at `base`: `773: pause; lfence; jmp 773b` and
`775: pause; lfence; jmp 775b`. -/
def fill_trap_addresses (base : Nat) : List Nat :=
  [base + 2, base + 3, base + 4, base + 6, base + 7, base + 8]

/-- The code at address `a` of the sequence is a speculation trap:
`pause; lfence; jmp a`. -/
def isTrapAt (base : Nat) (code : List Instr) (a : Nat) : Prop :=
  fetch base code a = some Instr.pause ∧
  fetch base code (a + 1) = some Instr.lfence ∧
  fetch base code (a + 2) = some (Instr.jmp a)

end NospecBranch

namespace NospecBranch

/-! ## Patch sites and instruction lengths -/

/-- Modelled from the spec: `ASM_NOP8` of `asm/nops.h` is not among the
sources; it is one no-op instruction of 8 bytes. -/
def ASM_NOP8 : Instr := Instr.nopl 8

/-- Modelled from the spec: `ASM_NOP3` of `asm/nops.h` is not among the
sources; it is one no-op instruction of 3 bytes. -/
def ASM_NOP3 : Instr := Instr.nopl 3

/-- Whether a register needs a REX prefix to be named (`%r8` .. `%r15`). -/
def needsRex : Reg → Bool
  | Reg.r8 | Reg.r9 | Reg.r10 | Reg.r11 | Reg.r12 | Reg.r13 | Reg.r14 | Reg.r15 => true
  | _ => false

/-- Length in bytes of the standard x86-64 encoding of an instruction, as the
assembler emits it for the operands of these macros (64-bit registers, jumps
to labels a few bytes away, which take the short form). -/
def encoded_length : Instr → Nat
  -- REX.W C7 /0 id; REX.W B8+r io for an immediate beyond 32 bits
  | Instr.mov_imm imm _ => if imm < 2 ^ 31 then 7 else 10
  -- REX.W 89 /r, plus a SIB or displacement byte for these base registers
  | Instr.mov_store _ ptr =>
      if ptr = Reg.rsp ∨ ptr = Reg.rbp ∨ ptr = Reg.r12 ∨ ptr = Reg.r13 then 4 else 3
  -- E8 cd
  | Instr.call _ => 5
  -- FF /2
  | Instr.call_ind r => if needsRex r then 3 else 2
  -- EB cb
  | Instr.jmp _ => 2
  -- FF /4
  | Instr.jmp_ind r => if needsRex r then 3 else 2
  -- 75 cb
  | Instr.jnz _ => 2
  -- REX.W FF /1
  | Instr.dec _ => 3
  -- REX.W 83 /0 ib; REX.W 05 id for %rax; REX.W 81 /0 id
  | Instr.add_imm imm dst => if imm < 128 then 4 else if dst = Reg.rax then 6 else 7
  -- C3
  | Instr.ret => 1
  -- F3 90
  | Instr.pause => 2
  -- 0F AE E8
  | Instr.lfence => 3
  -- 90
  | Instr.nop => 1
  | Instr.nopl len => len

/-- Length in bytes of a span of instructions (`662b-661b`, `664b-663b`). -/
def span_length (code : List Instr) : Nat :=
  (code.map encoded_length).sum

/-- A patch site as `altinstruction_entry` records it: the default span
`661: .. 662:` and the replacement span `663: .. 664:`. -/
structure alt_site where
  orig : List Instr
  repl : List Instr

/-- The patch site of `FILL_RETURN_BUFFER_CLOBBER reg` on x86-64, assembled at
`base`: the default span is `__FILL_RETURN_BUFFER(reg, RSB_CLEAR_LOOPS, %_ASM_SP)`
and the replacement is five `ASM_NOP8` and one `ASM_NOP3`. -/
def FILL_RETURN_BUFFER_CLOBBER (base : Nat) (reg : Reg) : alt_site :=
  { orig := __FILL_RETURN_BUFFER 64 base reg RSB_CLEAR_LOOPS Reg.rsp,
    repl := [ASM_NOP8, ASM_NOP8, ASM_NOP8, ASM_NOP8, ASM_NOP8, ASM_NOP3] }

/-- The patch site of `__JMP_NOSPEC reg`. -/
def __JMP_NOSPEC_site (base : Nat) (reg : Reg) : alt_site :=
  { orig := RETPOLINE_JMP base reg,
    repl := [ Instr.lfence, Instr.jmp_ind reg ] }

/-- The patch site of `__CALL_NOSPEC reg`. -/
def __CALL_NOSPEC_site (base : Nat) (reg : Reg) : alt_site :=
  { orig := RETPOLINE_CALL base reg,
    repl := [ Instr.lfence, Instr.call_ind reg ] }

end NospecBranch

namespace DmLinear

/-! ## Linear device-mapper target (`drivers/md/dm-linear.c`) -/

/-- Modelled from the spec: `SECTOR_SHIFT` of `linux/device-mapper.h` is not
among the sources; a sector is 512 bytes. -/
def SECTOR_SHIFT : Nat := 9

/-- The field of `struct inode` the target reads: `i_size`, a `loff_t`. -/
structure inode where
  i_size : Int

/-- The field of `struct block_device` the target reads, and an identity to
tell devices apart. -/
structure block_device where
  bd_dev : Nat
  bd_inode : inode

/-- The fields of `struct dm_dev` the target reads. -/
structure dm_dev where
  bdev : block_device
  name : String

/-- Linear: maps a linear range of a device. -/
structure linear_c where
  dev : dm_dev
  start : Nat

/-- The fields of `struct dm_target` the target reads: `len` and `priv`, the
`private` pointer to its `struct linear_c`. -/
structure dm_target where
  len : Nat
  priv : linear_c

/-- Modelled from the spec: `i_size_read` of `linux/fs.h` is not among the
sources; it reads the size of the inode in bytes. -/
def i_size_read (i : inode) : Int := i.i_size

/-- Conversion of a signed 64-bit value to `u64`, as the comparison with a
`sector_t` does on x86-64. -/
def to_u64 (x : Int) : Nat := (x % 2 ^ 64).toNat

/-- The function `linear_prepare_ioctl`.  The result is the return value and
the block device stored in `*bdev`. -/
def linear_prepare_ioctl (ti : dm_target) : Int × block_device :=
  let lc := ti.priv
  let dev := lc.dev
  let bdev := dev.bdev
  -- Only pass ioctls through if the device sizes match exactly.
  if lc.start ≠ 0 ∨ ti.len ≠ to_u64 (i_size_read dev.bdev.bd_inode >>> SECTOR_SHIFT) then
    (1, bdev)
  else
    (0, bdev)

/-- A target used to evaluate the function on a concrete input: a mapping of
`len` sectors at offset `start` of a device of `size` bytes. -/
def demoTarget (start len : Nat) (size : Int) : dm_target :=
  { len := len,
    priv := { dev := { bdev := { bd_dev := 0x800, bd_inode := { i_size := size } },
                            name := "8:0" },
                   start := start } }

end DmLinear

/-! # Theorems -/

namespace NospecBranch

/-! ## Word arithmetic -/

theorem two_pow_pos_bits (bits : Nat) : 0 < 2 ^ bits :=
  Nat.pos_pow_of_pos bits (by decide)

theorem wsub_lt (bits a b : Nat) : wsub bits a b < 2 ^ bits :=
  Nat.mod_lt _ (two_pow_pos_bits bits)

theorem wadd_lt (bits a b : Nat) : wadd bits a b < 2 ^ bits :=
  Nat.mod_lt _ (two_pow_pos_bits bits)

/-- Subtracting `b` and adding it back is the identity modulo `2 ^ bits`. -/
theorem wsub_add_mod (bits a b : Nat) :
    (wsub bits a b + b) % 2 ^ bits = a % 2 ^ bits := by
  unfold wsub
  have hM : 0 < 2 ^ bits := two_pow_pos_bits bits
  generalize 2 ^ bits = M at hM ⊢
  have hb : b % M < M := Nat.mod_lt _ hM
  have hdiv := Nat.div_add_mod b M
  rw [Nat.mod_add_mod]
  have h1 : a + (M - b % M) + b = a + M * (b / M + 1) := by
    rw [Nat.mul_add, Nat.mul_one]; omega
  rw [h1, Nat.add_mul_mod_self_left]

theorem wadd_wsub (bits a b : Nat) (ha : a < 2 ^ bits) :
    wadd bits (wsub bits a b) b = a := by
  unfold wadd
  rw [wsub_add_mod, Nat.mod_eq_of_lt ha]

/-- Two successive subtractions subtract the sum. -/
theorem wsub_wsub (bits a b c : Nat) :
    wsub bits (wsub bits a b) c = wsub bits a (b + c) := by
  have hM : 0 < 2 ^ bits := two_pow_pos_bits bits
  have h1 : (wsub bits (wsub bits a b) c + (b + c)) % 2 ^ bits = a % 2 ^ bits := by
    rw [show wsub bits (wsub bits a b) c + (b + c)
          = (wsub bits (wsub bits a b) c + c) + b by omega,
        Nat.add_mod, wsub_add_mod, ← Nat.add_mod, wsub_add_mod]
  have h2 := wsub_add_mod bits a (b + c)
  have h3 : wsub bits (wsub bits a b) c ≡ wsub bits a (b + c) [MOD 2 ^ bits] :=
    Nat.ModEq.add_right_cancel' (b + c) (h1.trans h2.symm)
  have := Nat.ModEq.eq_of_lt_of_lt h3 (wsub_lt _ _ _) (wsub_lt _ _ _)
  exact this

/-! ## Stepping lemmas -/

theorem fetch_at (base : Nat) (code : List Instr) (i : Nat) :
    fetch base code (base + i) = code.get? i := by
  simp [fetch]

theorem step_at (bits base : Nat) (code : List Instr) (s : Machine) (i : Nat) (ins : Instr)
    (hpc : s.pc = base + i) (hi : code.get? i = some ins) :
    step bits base code s = some (exec bits ins s) := by
  simp only [step, hpc, fetch_at, hi, Option.map_some']

theorem run_step (bits base : Nat) (code : List Instr) (n : Nat) (s t : Machine)
    (h : step bits base code s = some t) :
    run bits base code (n + 1) s = run bits base code n t := by
  simp only [run, h, Option.some_bind]

theorem run_add (bits base : Nat) (code : List Instr) (m n : Nat) (s t : Machine)
    (h : run bits base code m s = some t) :
    run bits base code (m + n) s = run bits base code n t := by
  induction m generalizing s with
  | zero =>
      simp only [run, Option.some.injEq] at h
      subst h
      simp
  | succ m ih =>
      rw [show m + 1 + n = (m + n) + 1 by omega]
      simp only [run] at h ⊢
      cases hs : step bits base code s with
      | none => simp [hs] at h
      | some u =>
          simp only [hs, Option.some_bind] at h ⊢
          exact ih u h

theorem run_add_none (bits base : Nat) (code : List Instr) (m n : Nat) (s : Machine)
    (h : run bits base code m s = none) :
    run bits base code (m + n) s = none := by
  induction m generalizing s with
  | zero => simp [run] at h
  | succ m ih =>
      rw [show m + 1 + n = (m + n) + 1 by omega]
      simp only [run] at h ⊢
      cases hs : step bits base code s with
      | none => simp
      | some u =>
          simp only [hs, Option.some_bind] at h ⊢
          exact ih u h

theorem wsub_succ_one (bits k : Nat) (hlt : k + 1 < 2 ^ bits) : wsub bits (k + 1) 1 = k := by
  unfold wsub
  have h1 : 1 % 2 ^ bits = 1 := Nat.mod_eq_of_lt (by omega)
  rw [h1, show k + 1 + (2 ^ bits - 1) = k + 2 ^ bits by omega, Nat.add_mod_right,
    Nat.mod_eq_of_lt (by omega)]

/-! ## Symbolic execution of `__FILL_RETURN_BUFFER` -/

/-- One pass of the loop `771 .. jnz 771b`: two calls, the decrement and the
conditional jump back. -/
theorem fill_pass (bits base : Nat) (reg : Reg) (nr k : Nat) (s : Machine)
    (hreg : reg ≠ Reg.rsp) (hpc : s.pc = base + 1) (hk : s.regs reg = k + 1)
    (hlt : k + 1 < 2 ^ bits) :
    ∃ t, run bits base (__FILL_RETURN_BUFFER bits base reg nr Reg.rsp) 4 s = some t ∧
      t.pc = (if k = 0 then base + 11 else base + 1) ∧
      t.regs reg = k ∧
      t.regs Reg.rsp = wsub bits (s.regs Reg.rsp) (2 * (bits / 8)) ∧
      (∀ r, r ≠ reg → r ≠ Reg.rsp → t.regs r = s.regs r) := by
  have hreg2 : Reg.rsp ≠ reg := fun h => hreg h.symm
  have e1 := step_at bits base (__FILL_RETURN_BUFFER bits base reg nr Reg.rsp) s 1
    (Instr.call (base + 5)) hpc rfl
  have e2 := step_at bits base (__FILL_RETURN_BUFFER bits base reg nr Reg.rsp)
    (exec bits (Instr.call (base + 5)) s) 5 (Instr.call (base + 9)) rfl rfl
  have e3 := step_at bits base (__FILL_RETURN_BUFFER bits base reg nr Reg.rsp)
    (exec bits (Instr.call (base + 9)) (exec bits (Instr.call (base + 5)) s)) 9
    (Instr.dec reg) rfl rfl
  have e4 := step_at bits base (__FILL_RETURN_BUFFER bits base reg nr Reg.rsp)
    (exec bits (Instr.dec reg)
      (exec bits (Instr.call (base + 9)) (exec bits (Instr.call (base + 5)) s))) 10
    (Instr.jnz (base + 1)) rfl rfl
  refine ⟨exec bits (Instr.jnz (base + 1)) (exec bits (Instr.dec reg)
      (exec bits (Instr.call (base + 9)) (exec bits (Instr.call (base + 5)) s))),
    ?_, ?_, ?_, ?_, ?_⟩
  · rw [run_step _ _ _ _ _ _ e1, run_step _ _ _ _ _ _ e2, run_step _ _ _ _ _ _ e3,
      run_step _ _ _ _ _ _ e4]
    rfl
  · simp [exec, push, setReg, hreg, hreg2, hk, wsub_succ_one bits k hlt]
  · simp [exec, push, setReg, hreg, hreg2, hk, wsub_succ_one bits k hlt]
  · simp [exec, push, setReg, hreg, hreg2, wsub_wsub]
    congr 1; omega
  · intro r h1 h2
    simp [exec, push, setReg, h1, h2]

/-- The whole loop: entered at `771` with the counter at `k + 1`, it makes
`k + 1` passes and falls through to the final `add` with the counter at `0`. -/
theorem fill_loop (bits base : Nat) (reg : Reg) (nr : Nat) (hreg : reg ≠ Reg.rsp) :
    ∀ (k : Nat) (s : Machine), s.pc = base + 1 → s.regs reg = k + 1 → k + 1 < 2 ^ bits →
    ∃ t, run bits base (__FILL_RETURN_BUFFER bits base reg nr Reg.rsp) (4 * (k + 1)) s = some t ∧
      t.pc = base + 11 ∧
      t.regs reg = 0 ∧
      t.regs Reg.rsp = wsub bits (s.regs Reg.rsp) (2 * (k + 1) * (bits / 8)) ∧
      (∀ r, r ≠ reg → r ≠ Reg.rsp → t.regs r = s.regs r) := by
  intro k
  induction k with
  | zero =>
      intro s hpc hk hlt
      obtain ⟨t, h1, h2, h3, h4, h5⟩ := fill_pass bits base reg nr 0 s hreg hpc hk hlt
      refine ⟨t, h1, by simpa using h2, h3, ?_, h5⟩
      rw [h4]
  | succ k ih =>
      intro s hpc hk hlt
      obtain ⟨t, h1, h2, h3, h4, h5⟩ := fill_pass bits base reg nr (k + 1) s hreg hpc hk hlt
      have hpc2 : t.pc = base + 1 := by simpa using h2
      obtain ⟨u, g1, g2, g3, g4, g5⟩ := ih t hpc2 h3 (by omega)
      refine ⟨u, ?_, g2, g3, ?_, ?_⟩
      · rw [show 4 * (k + 1 + 1) = 4 + 4 * (k + 1) by omega, run_add _ _ _ _ _ _ _ h1]
        exact g1
      · rw [g4, h4, wsub_wsub]; congr 1; ring
      · intro r hr1 hr2
        rw [g5 r hr1 hr2, h5 r hr1 hr2]

/-- The whole macro for an even `nr = 2 * (k + 1)`: after the `mov` and the
loop the stack pointer is `nr` words lower, and the final `add` restores it. -/
theorem fill_run (bits base : Nat) (reg : Reg) (nr k : Nat) (s : Machine)
    (hreg : reg ≠ Reg.rsp) (hnr : nr = 2 * (k + 1)) (hlt : k + 1 < 2 ^ bits)
    (hpc : s.pc = base) (hsp : s.regs Reg.rsp < 2 ^ bits) :
    ∃ mid fin,
      run bits base (__FILL_RETURN_BUFFER bits base reg nr Reg.rsp) (1 + 4 * (nr / 2)) s
        = some mid ∧
      mid.pc = base + 11 ∧
      mid.regs reg = 0 ∧
      mid.regs Reg.rsp = wsub bits (s.regs Reg.rsp) (nr * (bits / 8)) ∧
      run bits base (__FILL_RETURN_BUFFER bits base reg nr Reg.rsp) (2 + 4 * (nr / 2)) s
        = some fin ∧
      fin.pc = base + 12 ∧
      fin.regs reg = 0 ∧
      fin.regs Reg.rsp = s.regs Reg.rsp ∧
      (∀ r, r ≠ reg → r ≠ Reg.rsp → fin.regs r = s.regs r) := by
  have hreg2 : Reg.rsp ≠ reg := fun h => hreg h.symm
  have hhalf : nr / 2 = k + 1 := by omega
  have e0 := step_at bits base (__FILL_RETURN_BUFFER bits base reg nr Reg.rsp) s 0
    (Instr.mov_imm (nr / 2) reg) hpc rfl
  have r0 : run bits base (__FILL_RETURN_BUFFER bits base reg nr Reg.rsp) 1 s
      = some (exec bits (Instr.mov_imm (nr / 2) reg) s) := by
    rw [run_step _ _ _ _ _ _ e0]; rfl
  have hk0 : (exec bits (Instr.mov_imm (nr / 2) reg) s).regs reg = k + 1 := by
    simp [exec, setReg, hhalf, Nat.mod_eq_of_lt hlt]
  have hs0 : (exec bits (Instr.mov_imm (nr / 2) reg) s).regs Reg.rsp = s.regs Reg.rsp := by
    simp [exec, setReg, hreg2]
  obtain ⟨mid, m1, m2, m3, m4, m5⟩ := fill_loop bits base reg nr hreg k
    (exec bits (Instr.mov_imm (nr / 2) reg) s) (by simp [exec, hpc]) hk0 hlt
  have rmid : run bits base (__FILL_RETURN_BUFFER bits base reg nr Reg.rsp)
      (1 + 4 * (nr / 2)) s = some mid := by
    rw [run_add _ _ _ _ _ _ _ r0]
    have : 4 * (nr / 2) = 4 * (k + 1) := by omega
    rw [this]; exact m1
  have hmsp : mid.regs Reg.rsp = wsub bits (s.regs Reg.rsp) (nr * (bits / 8)) := by
    rw [m4, hs0, hnr]
  have e1 := step_at bits base (__FILL_RETURN_BUFFER bits base reg nr Reg.rsp) mid 11
    (Instr.add_imm ((bits / 8) * nr) Reg.rsp) m2 rfl
  refine ⟨mid, exec bits (Instr.add_imm ((bits / 8) * nr) Reg.rsp) mid,
    rmid, m2, m3, hmsp, ?_, ?_, ?_, ?_, ?_⟩
  · rw [show 2 + 4 * (nr / 2) = (1 + 4 * (nr / 2)) + 1 by omega, run_add _ _ _ _ _ _ _ rmid,
      run_step _ _ _ _ _ _ e1]
    rfl
  · simp [exec, m2]
  · simp [exec, setReg, hreg, m3]
  · simp only [exec, setReg, if_true]
    rw [hmsp, Nat.mul_comm (bits / 8) nr]
    exact wadd_wsub bits _ _ hsp
  · intro r hr1 hr2
    simp only [exec, setReg, hr2, if_false]
    rw [m5 r hr1 hr2]
    simp [exec, setReg, hr1]

/-- C1: for the RSB stuffing sequence `__FILL_RETURN_BUFFER(reg, nr, sp)` as
instantiated by `fill_RSB` (`nr = RSB_CLEAR_LOOPS = 32`) and for
`nr = RSB_FILL_LOOPS = 16`, from every initial stack pointer: when control
reaches the final `add` the calls have moved the stack pointer down by exactly
`nr * (BITS_PER_LONG / 8)` bytes, and after the `add` the sequence is complete
(control is at the first address after it) with the stack pointer equal to its
initial value. -/
theorem fill_return_buffer_sp_restored (bits base nr : Nat) (reg : Reg) (code : List Instr)
    (s : Machine) (hbits : bits = 32 ∨ bits = 64)
    (hcode : (nr = RSB_CLEAR_LOOPS ∧ code = fill_RSB bits base reg) ∨
      (nr = RSB_FILL_LOOPS ∧ code = __FILL_RETURN_BUFFER bits base reg RSB_FILL_LOOPS Reg.rsp))
    (hreg : reg ≠ Reg.rsp) (hpc : s.pc = base) (hsp : s.regs Reg.rsp < 2 ^ bits) :
    ∃ mid fin,
      run bits base code (1 + 4 * (nr / 2)) s = some mid ∧
      mid.pc = base + 11 ∧
      mid.regs Reg.rsp = wsub bits (s.regs Reg.rsp) (nr * (bits / 8)) ∧
      run bits base code (2 + 4 * (nr / 2)) s = some fin ∧
      fin.pc = base + code.length ∧
      fin.regs Reg.rsp = s.regs Reg.rsp := by
  have h16 : 15 + 1 < 2 ^ bits := by
    rcases hbits with h | h <;> subst h <;> decide
  rcases hcode with ⟨hn, hc⟩ | ⟨hn, hc⟩
  · subst hn; subst hc
    obtain ⟨mid, fin, h1, h2, _, h4, h5, h6, _, h8, _⟩ :=
      fill_run bits base reg RSB_CLEAR_LOOPS 15 s hreg rfl h16 hpc hsp
    exact ⟨mid, fin, h1, h2, h4, h5, h6, h8⟩
  · subst hn; subst hc
    have h8 : 7 + 1 < 2 ^ bits := by omega
    obtain ⟨mid, fin, h1, h2, _, h4, h5, h6, _, h8, _⟩ :=
      fill_run bits base reg RSB_FILL_LOOPS 7 s hreg rfl h8 hpc hsp
    exact ⟨mid, fin, h1, h2, h4, h5, h6, h8⟩

/-- Witness of C1: `fill_RSB` on x86-64 with the counter in `%rax`, entered with
the stack pointer at `0x1000`. -/
theorem fill_return_buffer_sp_restored_witness :
    ∃ mid fin,
      run 64 0x400 (fill_RSB 64 0x400 Reg.rax) (1 + 4 * (32 / 2)) (demoMachine 0x400)
        = some mid ∧
      mid.pc = 0x400 + 11 ∧
      mid.regs Reg.rsp = wsub 64 ((demoMachine 0x400).regs Reg.rsp) (32 * (64 / 8)) ∧
      run 64 0x400 (fill_RSB 64 0x400 Reg.rax) (2 + 4 * (32 / 2)) (demoMachine 0x400)
        = some fin ∧
      fin.pc = 0x400 + (fill_RSB 64 0x400 Reg.rax).length ∧
      fin.regs Reg.rsp = (demoMachine 0x400).regs Reg.rsp :=
  fill_return_buffer_sp_restored 64 0x400 32 Reg.rax (fill_RSB 64 0x400 Reg.rax)
    (demoMachine 0x400) (Or.inr rfl) (Or.inl ⟨rfl, rfl⟩) (by decide) rfl (by decide)

/-! ## `JMP_NOSPEC` -/

theorem wsub_word_ne (bits a : Nat) (hbits : bits = 32 ∨ bits = 64) (ha : a < 2 ^ bits) :
    wsub bits a (bits / 8) ≠ a := by
  intro h
  have h1 := wadd_wsub bits a (bits / 8) ha
  rw [h] at h1
  unfold wadd at h1
  rcases hbits with hb | hb <;> subst hb <;> norm_num at h1 ha <;> omega

/-- C2 (amended): for every register operand `reg` other than the stack
pointer and every machine state, the three code shapes `JMP_NOSPEC reg` can
execute (static key off: plain `jmp *reg`; key on with
`X86_FEATURE_RETPOLINE_AMD`: `lfence; jmp *reg`; key on without it:
`RETPOLINE_JMP reg`) all end with the program counter equal to the value `reg`
held on entry and with the stack pointer and every general register equal to
their values on entry. -/
theorem JMP_NOSPEC_shapes_agree (bits base : Nat) (key amd : Bool) (reg : Reg) (s : Machine)
    (hreg : reg ≠ Reg.rsp) (hpc : s.pc = base)
    (hsp : s.regs Reg.rsp < 2 ^ bits) :
    ∃ n t, run bits base (JMP_NOSPEC base key amd reg) n s = some t ∧
      t.pc = s.regs reg ∧ ∀ r, t.regs r = s.regs r := by
  have hpc0 : s.pc = base + 0 := hpc
  cases key with
  | false =>
      -- nop; jmp *reg
      have e1 := step_at bits base (JMP_NOSPEC base false amd reg) s 0 Instr.nop hpc0 rfl
      have e2 := step_at bits base (JMP_NOSPEC base false amd reg) (exec bits Instr.nop s) 1
        (Instr.jmp_ind reg) (by simp [exec, hpc]) rfl
      refine ⟨2, exec bits (Instr.jmp_ind reg) (exec bits Instr.nop s), ?_, rfl, fun r => rfl⟩
      rw [run_step _ _ _ _ _ _ e1, run_step _ _ _ _ _ _ e2]; rfl
  | true =>
      have e1 := step_at bits base (JMP_NOSPEC base true amd reg) s 0 (Instr.jmp (base + 2))
        hpc0 rfl
      cases amd with
      | true =>
          -- jmp .Lretp_; lfence; jmp *reg
          have e2 := step_at bits base (JMP_NOSPEC base true true reg)
            (exec bits (Instr.jmp (base + 2)) s) 2 Instr.lfence rfl rfl
          have e3 := step_at bits base (JMP_NOSPEC base true true reg)
            (exec bits Instr.lfence (exec bits (Instr.jmp (base + 2)) s)) 3
            (Instr.jmp_ind reg) rfl rfl
          refine ⟨3, exec bits (Instr.jmp_ind reg)
            (exec bits Instr.lfence (exec bits (Instr.jmp (base + 2)) s)), ?_, rfl, fun r => rfl⟩
          rw [run_step _ _ _ _ _ _ e1, run_step _ _ _ _ _ _ e2, run_step _ _ _ _ _ _ e3]; rfl
      | false =>
          -- jmp .Lretp_; call .Ldo_rop_; mov reg, (%_ASM_SP); ret
          have e2 := step_at bits base (JMP_NOSPEC base true false reg)
            (exec bits (Instr.jmp (base + 2)) s) 2 (Instr.call (base + 2 + 4)) rfl rfl
          have e3 := step_at bits base (JMP_NOSPEC base true false reg)
            (exec bits (Instr.call (base + 2 + 4)) (exec bits (Instr.jmp (base + 2)) s)) 6
            (Instr.mov_store reg Reg.rsp) rfl rfl
          have e4 := step_at bits base (JMP_NOSPEC base true false reg)
            (exec bits (Instr.mov_store reg Reg.rsp)
              (exec bits (Instr.call (base + 2 + 4)) (exec bits (Instr.jmp (base + 2)) s))) 7
            Instr.ret rfl rfl
          refine ⟨4, exec bits Instr.ret (exec bits (Instr.mov_store reg Reg.rsp)
              (exec bits (Instr.call (base + 2 + 4)) (exec bits (Instr.jmp (base + 2)) s))),
            ?_, ?_, ?_⟩
          · rw [run_step _ _ _ _ _ _ e1, run_step _ _ _ _ _ _ e2, run_step _ _ _ _ _ _ e3,
              run_step _ _ _ _ _ _ e4]; rfl
          · simp [exec, push, setReg, setMem, hreg]
          · intro r
            by_cases hr : r = Reg.rsp
            · subst hr
              simp [exec, push, setReg, wadd_wsub bits _ _ hsp]
            · simp [exec, push, setReg, hr]

/-- Witness of C2 (amended): the default retpoline shape with the target in
`%rax`. -/
theorem JMP_NOSPEC_shapes_agree_witness :
    ∃ n t, run 64 0x400 (JMP_NOSPEC 0x400 true false Reg.rax) n (demoMachine 0x400) = some t ∧
      t.pc = (demoMachine 0x400).regs Reg.rax ∧ ∀ r, t.regs r = (demoMachine 0x400).regs r :=
  JMP_NOSPEC_shapes_agree 64 0x400 true false Reg.rax (demoMachine 0x400)
    (by decide) rfl (by decide)

/-- C2 (counterexample): with the stack pointer as operand the shapes differ.
Entered with `%rsp = 0x1000`, the plain `jmp *%rsp` and the `lfence; jmp *%rsp`
replacement go to `0x1000`, but `RETPOLINE_JMP %rsp` stores the stack pointer
after its `call` has pushed, so its `ret` goes to `0xff8`; control then is
outside the macro and no number of steps reaches `0x1000`. -/
theorem JMP_NOSPEC_rsp_counterexample :
    (run 64 0x400 (JMP_NOSPEC 0x400 false false Reg.rsp) 2 (demoMachine 0x400)).map
        (fun t => (t.pc, t.regs Reg.rsp)) = some (0x1000, 0x1000) ∧
    (run 64 0x400 (JMP_NOSPEC 0x400 true true Reg.rsp) 3 (demoMachine 0x400)).map
        (fun t => (t.pc, t.regs Reg.rsp)) = some (0x1000, 0x1000) ∧
    (run 64 0x400 (JMP_NOSPEC 0x400 true false Reg.rsp) 4 (demoMachine 0x400)).map
        (fun t => (t.pc, t.regs Reg.rsp)) = some (0xff8, 0x1000) ∧
    ¬ ∃ n t, run 64 0x400 (JMP_NOSPEC 0x400 true false Reg.rsp) n (demoMachine 0x400) = some t ∧
        t.pc = (demoMachine 0x400).regs Reg.rsp := by
  refine ⟨by decide, by decide, by decide, ?_⟩
  rintro ⟨n, t, hrun, hpc⟩
  have hsmall : ∀ k < 5,
      (run 64 0x400 (JMP_NOSPEC 0x400 true false Reg.rsp) k (demoMachine 0x400)).map
        (fun t => t.pc) ≠ some 0x1000 := by decide
  by_cases hn : n < 5
  · apply hsmall n hn
    rw [hrun]
    simpa using hpc
  · obtain ⟨k, rfl⟩ : ∃ k, n = 4 + (k + 1) := ⟨n - 5, by omega⟩
    cases h4 : run 64 0x400 (JMP_NOSPEC 0x400 true false Reg.rsp) 4 (demoMachine 0x400) with
    | none => rw [run_add_none _ _ _ _ _ _ h4] at hrun; cases hrun
    | some u =>
        have hu : u.pc = 0xff8 := by
          have h := (by decide :
            (run 64 0x400 (JMP_NOSPEC 0x400 true false Reg.rsp) 4 (demoMachine 0x400)).map
              (fun t => t.pc) = some 0xff8)
          rw [h4] at h
          simpa using h
        rw [run_add _ _ _ _ _ _ _ h4] at hrun
        simp [run, step, fetch, hu, JMP_NOSPEC, __JMP_NOSPEC, ALTERNATIVE, RETPOLINE_JMP] at hrun

/-! ## `CALL_NOSPEC` -/

theorem CALL_NOSPEC_length (base : Nat) (key amd : Bool) (reg : Reg) :
    (CALL_NOSPEC base key amd reg).length = 11 := by
  cases key <;> cases amd <;> rfl

/-- C3: for every target held in `reg` (other than the stack pointer) and every
machine state, `CALL_NOSPEC reg` in each of its three shapes enters the
function at the address `reg` held on entry with exactly one return address
pushed (the stack pointer is one word lower, no other register changed); and
when the function returns through that address (its `ret` pops the word on top
of the stack), execution reaches `.Ldone_`, the address right after the macro,
with the stack pointer equal to its value before the macro. -/
theorem CALL_NOSPEC_enters_and_returns (bits base : Nat) (key amd : Bool) (reg : Reg)
    (s : Machine) (hbits : bits = 32 ∨ bits = 64) (hreg : reg ≠ Reg.rsp) (hpc : s.pc = base)
    (hsp : s.regs Reg.rsp < 2 ^ bits) :
    ∃ n t, run bits base (CALL_NOSPEC base key amd reg) n s = some t ∧
      t.pc = s.regs reg ∧
      t.regs Reg.rsp = wsub bits (s.regs Reg.rsp) (bits / 8) ∧
      (∀ r, r ≠ Reg.rsp → t.regs r = s.regs r) ∧
      ∀ u : Machine, u.pc = t.mem (t.regs Reg.rsp) →
        u.regs Reg.rsp = wadd bits (t.regs Reg.rsp) (bits / 8) →
        ∃ m v, run bits base (CALL_NOSPEC base key amd reg) m u = some v ∧
          v.pc = base + (CALL_NOSPEC base key amd reg).length ∧
          v.regs Reg.rsp = s.regs Reg.rsp ∧
          ∀ r, v.regs r = u.regs r := by
  have hpc0 : s.pc = base + 0 := hpc
  have hback := wadd_wsub bits (s.regs Reg.rsp) (bits / 8) hsp
  rw [CALL_NOSPEC_length]
  cases key with
  | false =>
      -- nop; call *reg  ...  jmp .Ldone_
      have e1 := step_at bits base (CALL_NOSPEC base false amd reg) s 0 Instr.nop hpc0 rfl
      have e2 := step_at bits base (CALL_NOSPEC base false amd reg) (exec bits Instr.nop s) 1
        (Instr.call_ind reg) (by simp [exec, hpc]) rfl
      refine ⟨2, exec bits (Instr.call_ind reg) (exec bits Instr.nop s), ?_, rfl, ?_, ?_, ?_⟩
      · rw [run_step _ _ _ _ _ _ e1, run_step _ _ _ _ _ _ e2]; rfl
      · simp [exec, push, setReg]
      · intro r hr
        simp [exec, push, setReg, hr]
      · intro u hu husp
        have hu2 : u.pc = base + 2 := by
          rw [hu]; simp [exec, push, setReg, setMem, hpc]
        have f1 := step_at bits base (CALL_NOSPEC base false amd reg) u 2
          (Instr.jmp (base + 11)) hu2 rfl
        refine ⟨1, exec bits (Instr.jmp (base + 11)) u, ?_, rfl, ?_, fun r => rfl⟩
        · rw [run_step _ _ _ _ _ _ f1]; rfl
        · show u.regs Reg.rsp = _
          rw [husp]
          simpa [exec, push, setReg] using hback
  | true =>
      have e1 := step_at bits base (CALL_NOSPEC base true amd reg) s 0 (Instr.jmp (base + 3))
        hpc0 rfl
      cases amd with
      | true =>
          -- jmp .Lretp_; lfence; call *reg  ...  padding
          have e2 := step_at bits base (CALL_NOSPEC base true true reg)
            (exec bits (Instr.jmp (base + 3)) s) 3 Instr.lfence rfl rfl
          have e3 := step_at bits base (CALL_NOSPEC base true true reg)
            (exec bits Instr.lfence (exec bits (Instr.jmp (base + 3)) s)) 4
            (Instr.call_ind reg) rfl rfl
          refine ⟨3, exec bits (Instr.call_ind reg)
            (exec bits Instr.lfence (exec bits (Instr.jmp (base + 3)) s)), ?_, rfl, ?_, ?_, ?_⟩
          · rw [run_step _ _ _ _ _ _ e1, run_step _ _ _ _ _ _ e2, run_step _ _ _ _ _ _ e3]; rfl
          · simp [exec, push, setReg]
          · intro r hr
            simp [exec, push, setReg, hr]
          · intro u hu husp
            have hu2 : u.pc = base + 5 := by
              rw [hu]; simp [exec, push, setReg, setMem]
            have f1 := step_at bits base (CALL_NOSPEC base true true reg) u 5 Instr.nop hu2 rfl
            have f2 := step_at bits base (CALL_NOSPEC base true true reg)
              (exec bits Instr.nop u) 6 Instr.nop (by simp [exec, hu2]) rfl
            have f3 := step_at bits base (CALL_NOSPEC base true true reg)
              (exec bits Instr.nop (exec bits Instr.nop u)) 7 Instr.nop
              (by simp [exec, hu2]) rfl
            have f4 := step_at bits base (CALL_NOSPEC base true true reg)
              (exec bits Instr.nop (exec bits Instr.nop (exec bits Instr.nop u))) 8 Instr.nop
              (by simp [exec, hu2]) rfl
            have f5 := step_at bits base (CALL_NOSPEC base true true reg)
              (exec bits Instr.nop (exec bits Instr.nop (exec bits Instr.nop
                (exec bits Instr.nop u)))) 9 Instr.nop (by simp [exec, hu2]) rfl
            have f6 := step_at bits base (CALL_NOSPEC base true true reg)
              (exec bits Instr.nop (exec bits Instr.nop (exec bits Instr.nop
                (exec bits Instr.nop (exec bits Instr.nop u))))) 10 Instr.nop
              (by simp [exec, hu2]) rfl
            refine ⟨6, exec bits Instr.nop (exec bits Instr.nop (exec bits Instr.nop
                (exec bits Instr.nop (exec bits Instr.nop (exec bits Instr.nop u))))),
              ?_, ?_, ?_, fun r => rfl⟩
            · rw [run_step _ _ _ _ _ _ f1, run_step _ _ _ _ _ _ f2, run_step _ _ _ _ _ _ f3,
                run_step _ _ _ _ _ _ f4, run_step _ _ _ _ _ _ f5, run_step _ _ _ _ _ _ f6]; rfl
            · simp [exec, hu2]
            · show u.regs Reg.rsp = _
              rw [husp]
              simpa [exec, push, setReg] using hback
      | false =>
          -- jmp .Lretp_; jmp .Ldo_call_; call .Ldo_retpoline_jmp_; call .Ldo_rop_;
          -- mov reg, (%_ASM_SP); ret
          have hne := wsub_word_ne bits (wsub bits (s.regs Reg.rsp) (bits / 8)) hbits
            (wsub_lt _ _ _)
          have hback2 := wadd_wsub bits (wsub bits (s.regs Reg.rsp) (bits / 8)) (bits / 8)
            (wsub_lt _ _ _)
          have e2 := step_at bits base (CALL_NOSPEC base true false reg)
            (exec bits (Instr.jmp (base + 3)) s) 3 (Instr.jmp (base + 3 + 7)) rfl rfl
          have e3 := step_at bits base (CALL_NOSPEC base true false reg)
            (exec bits (Instr.jmp (base + 3 + 7)) (exec bits (Instr.jmp (base + 3)) s)) 10
            (Instr.call (base + 3 + 1)) rfl rfl
          have e4 := step_at bits base (CALL_NOSPEC base true false reg)
            (exec bits (Instr.call (base + 3 + 1))
              (exec bits (Instr.jmp (base + 3 + 7)) (exec bits (Instr.jmp (base + 3)) s))) 4
            (Instr.call (base + 3 + 1 + 4)) rfl rfl
          have e5 := step_at bits base (CALL_NOSPEC base true false reg)
            (exec bits (Instr.call (base + 3 + 1 + 4)) (exec bits (Instr.call (base + 3 + 1))
              (exec bits (Instr.jmp (base + 3 + 7)) (exec bits (Instr.jmp (base + 3)) s)))) 8
            (Instr.mov_store reg Reg.rsp) rfl rfl
          have e6 := step_at bits base (CALL_NOSPEC base true false reg)
            (exec bits (Instr.mov_store reg Reg.rsp)
              (exec bits (Instr.call (base + 3 + 1 + 4)) (exec bits (Instr.call (base + 3 + 1))
                (exec bits (Instr.jmp (base + 3 + 7)) (exec bits (Instr.jmp (base + 3)) s)))))
            9 Instr.ret rfl rfl
          refine ⟨6, exec bits Instr.ret (exec bits (Instr.mov_store reg Reg.rsp)
              (exec bits (Instr.call (base + 3 + 1 + 4)) (exec bits (Instr.call (base + 3 + 1))
                (exec bits (Instr.jmp (base + 3 + 7)) (exec bits (Instr.jmp (base + 3)) s))))),
            ?_, ?_, ?_, ?_, ?_⟩
          · rw [run_step _ _ _ _ _ _ e1, run_step _ _ _ _ _ _ e2, run_step _ _ _ _ _ _ e3,
              run_step _ _ _ _ _ _ e4, run_step _ _ _ _ _ _ e5, run_step _ _ _ _ _ _ e6]; rfl
          · simp [exec, push, setReg, setMem, hreg]
          · simp [exec, push, setReg, hback2]
          · intro r hr
            simp [exec, push, setReg, hr]
          · intro u hu husp
            have hu2 : u.pc = base + 11 := by
              rw [hu]
              simp [exec, push, setReg, setMem, hreg, hback2, hne.symm]
            refine ⟨0, u, rfl, hu2, ?_, fun r => rfl⟩
            rw [husp]
            simpa [exec, push, setReg, hback2] using hback

/-- Witness of C3: the default retpoline shape with the target in `%rax`. -/
theorem CALL_NOSPEC_enters_and_returns_witness :
    ∃ n t, run 64 0x400 (CALL_NOSPEC 0x400 true false Reg.rax) n (demoMachine 0x400) = some t ∧
      t.pc = (demoMachine 0x400).regs Reg.rax ∧
      t.regs Reg.rsp = wsub 64 ((demoMachine 0x400).regs Reg.rsp) (64 / 8) ∧
      (∀ r, r ≠ Reg.rsp → t.regs r = (demoMachine 0x400).regs r) ∧
      ∀ u : Machine, u.pc = t.mem (t.regs Reg.rsp) →
        u.regs Reg.rsp = wadd 64 (t.regs Reg.rsp) (64 / 8) →
        ∃ m v, run 64 0x400 (CALL_NOSPEC 0x400 true false Reg.rax) m u = some v ∧
          v.pc = 0x400 + (CALL_NOSPEC 0x400 true false Reg.rax).length ∧
          v.regs Reg.rsp = (demoMachine 0x400).regs Reg.rsp ∧
          ∀ r, v.regs r = u.regs r :=
  CALL_NOSPEC_enters_and_returns 64 0x400 true false Reg.rax (demoMachine 0x400) (Or.inr rfl)
    (by decide) rfl (by decide)

/-! ## Enumerations and the speculation-control baseline -/

/-- C4: the numeric values of `enum spectre_v2_mitigation` form a strict total
order: the ten enumerators have pairwise distinct values (any two are equal or
strictly comparable), `SPECTRE_V2_NONE` is the least, and
`NONE < RETPOLINE_MINIMAL < RETPOLINE_NO_IBPB < RETPOLINE < RETPOLINE_IBRS_USER
< IBRS < IBRS_ALWAYS < IBP_DISABLED`. -/
theorem spectre_v2_mitigation_total_order :
    (∀ a b : spectre_v2_mitigation, a.val = b.val → a = b) ∧
    (∀ a b : spectre_v2_mitigation, a.val < b.val ∨ a = b ∨ b.val < a.val) ∧
    (∀ a : spectre_v2_mitigation, a ∈ spectre_v2_mitigation.all) ∧
    spectre_v2_mitigation.all.length = 10 ∧
    (spectre_v2_mitigation.all.map spectre_v2_mitigation.val).Nodup ∧
    (∀ a : spectre_v2_mitigation, spectre_v2_mitigation.SPECTRE_V2_NONE.val ≤ a.val) ∧
    spectre_v2_mitigation.SPECTRE_V2_NONE.val < spectre_v2_mitigation.SPECTRE_V2_RETPOLINE_MINIMAL.val ∧
    spectre_v2_mitigation.SPECTRE_V2_RETPOLINE_MINIMAL.val < spectre_v2_mitigation.SPECTRE_V2_RETPOLINE_NO_IBPB.val ∧
    spectre_v2_mitigation.SPECTRE_V2_RETPOLINE_NO_IBPB.val < spectre_v2_mitigation.SPECTRE_V2_RETPOLINE.val ∧
    spectre_v2_mitigation.SPECTRE_V2_RETPOLINE.val < spectre_v2_mitigation.SPECTRE_V2_RETPOLINE_IBRS_USER.val ∧
    spectre_v2_mitigation.SPECTRE_V2_RETPOLINE_IBRS_USER.val < spectre_v2_mitigation.SPECTRE_V2_IBRS.val ∧
    spectre_v2_mitigation.SPECTRE_V2_IBRS.val < spectre_v2_mitigation.SPECTRE_V2_IBRS_ALWAYS.val ∧
    spectre_v2_mitigation.SPECTRE_V2_IBRS_ALWAYS.val < spectre_v2_mitigation.SPECTRE_V2_IBP_DISABLED.val := by
  refine ⟨?_, ?_, ?_, rfl, by decide, ?_, by decide, by decide, by decide, by decide,
    by decide, by decide, by decide⟩
  · intro a b
    cases a <;> cases b <;> simp [spectre_v2_mitigation.val]
  · intro a b
    cases a <;> cases b <;> simp [spectre_v2_mitigation.val]
  · intro a
    cases a <;> simp [spectre_v2_mitigation.all]
  · intro a
    cases a <;> simp [spectre_v2_mitigation.val]

theorem testBit_not64 (x i : Nat) : (not64 x).testBit i = (decide (i < 64) && !x.testBit i) := by
  unfold not64
  rw [Nat.testBit_xor, Nat.testBit_two_pow_sub_one, Nat.testBit_mod_two_pow]
  by_cases h : i < 64 <;> simp [h]

/-- C5: for all 64-bit values `base`, `set_mask` and `clear_mask`, the value
`merge_update` leaves in the baseline agrees with `base` on every bit outside
both masks: `result & ~(set_mask|clear_mask) == base & ~(set_mask|clear_mask)`;
and `base = 0xFFFF_FFFF_0000_0001`, `set_mask = 0x2`, `clear_mask = 0x1` gives
`0xFFFF_FFFF_0000_0002`. -/
theorem merge_update_preserves_unowned_bits :
    (∀ base set_mask clear_mask : Nat,
      merge_update base set_mask clear_mask &&& not64 (set_mask ||| clear_mask)
        = base &&& not64 (set_mask ||| clear_mask)) ∧
    merge_update 0xFFFFFFFF00000001 0x2 0x1 = 0xFFFFFFFF00000002 := by
  refine ⟨?_, by decide⟩
  intro base set_mask clear_mask
  apply Nat.eq_of_testBit_eq
  intro i
  unfold merge_update
  simp only [Nat.testBit_and, Nat.testBit_or, Nat.testBit_mod_two_pow, testBit_not64]
  by_cases h : i < 64 <;> simp [h]
  cases base.testBit i <;> cases set_mask.testBit i <;> cases clear_mask.testBit i <;> simp

/-- C7: in the per-task store-bypass state machine, for every task whose state
is `SPEC_STORE_BYPASS_DISABLE` or `SPEC_STORE_BYPASS_SECCOMP` a request to move
to `SPEC_STORE_BYPASS_PRCTL` is rejected with a policy-violation result and the
state after the request equals the state before it. -/
theorem ssb_prctl_request_rejected (state : ssb_mitigation)
    (h : state = ssb_mitigation.SPEC_STORE_BYPASS_DISABLE ∨ state = ssb_mitigation.SPEC_STORE_BYPASS_SECCOMP) :
    (ssb_request_prctl state).1 = ssb_result.policy_violation ∧
    (ssb_request_prctl state).2 = state := by
  rcases h with h | h <;> subst h <;> exact ⟨rfl, rfl⟩

/-- Witness of C7: a task in state `SPEC_STORE_BYPASS_SECCOMP`. -/
theorem ssb_prctl_request_rejected_witness :
    (ssb_request_prctl ssb_mitigation.SPEC_STORE_BYPASS_SECCOMP).1
      = ssb_result.policy_violation ∧
    (ssb_request_prctl ssb_mitigation.SPEC_STORE_BYPASS_SECCOMP).2
      = ssb_mitigation.SPEC_STORE_BYPASS_SECCOMP :=
  ssb_prctl_request_rejected ssb_mitigation.SPEC_STORE_BYPASS_SECCOMP (Or.inr rfl)

end NospecBranch

namespace Eth

/-! ## Bytes and byte order -/

theorem load16_store16 (mem : Nat → Nat) (a v : Nat) :
    load16 (store16 mem a v) a = v % 2 ^ 16 := by
  simp only [load16, store16, if_true, Nat.add_right_eq_self, Nat.one_ne_zero, if_false]
  omega

theorem load16_congr (m1 m2 : Nat → Nat) (a : Nat) (h0 : m1 a = m2 a)
    (h1 : m1 (a + 1) = m2 (a + 1)) : load16 m1 a = load16 m2 a := by
  simp only [load16, h0, h1]

theorem htons_lt (x : Nat) : htons x < 2 ^ 16 := by
  simp only [htons, swab16]
  omega

theorem swab16_swab16 (y : Nat) (hy : y < 2 ^ 16) : swab16 (swab16 y) = y := by
  simp only [swab16]
  have h1 : y / 256 < 256 := by omega
  have h2 : y / 256 % 256 = y / 256 := Nat.mod_eq_of_lt h1
  have h3 : (y % 256 * 256 + y / 256) % 256 = y / 256 := by omega
  have h4 : (y % 256 * 256 + y / 256) / 256 = y % 256 := by omega
  rw [h2, h3, h4]
  omega

theorem ntohs_htons (x : Nat) : ntohs (htons x) = x % 2 ^ 16 := by
  have hy : x % 2 ^ 16 < 2 ^ 16 := Nat.mod_lt _ (by decide)
  have h := htons_lt x
  simp only [ntohs, Nat.mod_eq_of_lt h]
  exact swab16_swab16 _ hy

theorem ntohs_load16 (mem : Nat → Nat) (a : Nat) :
    ntohs (load16 mem a) = 256 * (mem a % 256) + mem (a + 1) % 256 := by
  simp only [ntohs, swab16, load16]
  omega

/-! ## `eth_header` -/

theorem memcpy_above (m : Nat → Nat) (dst : Nat) (src : Nat → Nat) (n x : Nat)
    (h : dst + n ≤ x) : memcpy m dst src n x = m x := by
  simp only [memcpy]
  rw [if_neg (by omega)]

theorem memset_above (m : Nat → Nat) (dst c n x : Nat)
    (h : dst + n ≤ x) : memset m dst c n x = m x := by
  simp only [memset]
  rw [if_neg (by omega)]

/-- Whatever is written afterwards below offset `a + 6` of the header, the
protocol field keeps the value stored in it. -/
theorem header_tail_proto (m mf : Nat → Nat) (a p : Nat) (src : Nat → Nat)
    (h : ∀ x, a + ETH_ALEN ≤ x → mf x = memcpy (store16 m (a + 12) p) (a + 6) src ETH_ALEN x) :
    load16 mf (a + 12) = p % 2 ^ 16 := by
  rw [← load16_store16 m (a + 12) p]
  apply load16_congr
  · rw [h _ (by simp only [ETH_ALEN]; omega)]; simp [memcpy, ETH_ALEN]
  · rw [h _ (by simp only [ETH_ALEN]; omega)]; simp [memcpy, ETH_ALEN]

/-- Whatever is written afterwards below offset `a + 6` of the header, the
source field keeps the six bytes copied into it. -/
theorem header_tail_source (m mf : Nat → Nat) (a p : Nat) (src : Nat → Nat)
    (h : ∀ x, a + ETH_ALEN ≤ x → mf x = memcpy (store16 m (a + 12) p) (a + 6) src ETH_ALEN x)
    (i : Nat) (hi : i < ETH_ALEN) : mf (a + 6 + i) = src i := by
  simp only [ETH_ALEN] at hi
  rw [h _ (by simp only [ETH_ALEN]; omega)]
  simp [memcpy, ETH_ALEN, hi]

/-- C8: for every `type` and `len`, `eth_header` pushes a 14-byte header and
writes into its protocol field `h_proto` the value `htons(type)` when `type` is
neither `ETH_P_802_3` nor `ETH_P_802_2`, and `htons(len)` with `len` truncated
to 16 bits when it is one of them (in memory: the high byte, then the low
byte); as source address it writes the six bytes at `saddr` when `saddr` is
non-NULL and `dev->dev_addr` when it is NULL. -/
theorem eth_header_proto_and_source (c : Consts) (skb : sk_buff) (dev : net_device)
    (type len : Nat) (daddr saddr : Option (Nat → Nat)) (hroom : ETH_HLEN ≤ skb.data) :
    ∃ ret skb1, eth_header c skb dev type daddr saddr len = some (ret, skb1) ∧
      skb1.data = skb.data - ETH_HLEN ∧ skb1.len = skb.len + ETH_HLEN ∧
      load16 skb1.mem (skb1.data + 12)
        = (if type ≠ c.ETH_P_802_3 ∧ type ≠ c.ETH_P_802_2 then htons type
           else htons (len % 2 ^ 16)) ∧
      ntohs (load16 skb1.mem (skb1.data + 12))
        = (if type ≠ c.ETH_P_802_3 ∧ type ≠ c.ETH_P_802_2 then type % 2 ^ 16
           else len % 2 ^ 16) ∧
      ∀ i < ETH_ALEN, skb1.mem (skb1.data + 6 + i)
        = (match saddr with
           | some a => a i
           | none => dev.dev_addr i) := by
  have hpush : skb_push skb ETH_HLEN
      = some { skb with data := skb.data - ETH_HLEN, len := skb.len + ETH_HLEN } := by
    simp [skb_push, hroom]
  have hp : (if type ≠ c.ETH_P_802_3 ∧ type ≠ c.ETH_P_802_2 then htons type else htons len)
      % 2 ^ 16
      = (if type ≠ c.ETH_P_802_3 ∧ type ≠ c.ETH_P_802_2 then htons type
         else htons (len % 2 ^ 16)) := by
    split
    · exact Nat.mod_eq_of_lt (htons_lt _)
    · rw [Nat.mod_eq_of_lt (htons_lt _)]
      simp [htons]
  have hn : ntohs (if type ≠ c.ETH_P_802_3 ∧ type ≠ c.ETH_P_802_2 then htons type
         else htons (len % 2 ^ 16))
      = (if type ≠ c.ETH_P_802_3 ∧ type ≠ c.ETH_P_802_2 then type % 2 ^ 16
         else len % 2 ^ 16) := by
    split
    · exact ntohs_htons _
    · rw [ntohs_htons]; simp
  unfold eth_header
  rw [hpush]
  dsimp only
  cases daddr with
  | some d =>
      refine ⟨_, _, rfl, rfl, rfl, ?_, ?_, ?_⟩
      · rw [← hp]
        exact header_tail_proto skb.mem _ (skb.data - ETH_HLEN) _ _
          (fun x hx => memcpy_above _ _ _ _ _ hx)
      · rw [← hn, ← hp]
        congr 1
        exact header_tail_proto skb.mem _ (skb.data - ETH_HLEN) _ _
          (fun x hx => memcpy_above _ _ _ _ _ hx)
      · intro i hi
        dsimp only
        rw [header_tail_source skb.mem _ (skb.data - ETH_HLEN) _ _
          (fun x hx => memcpy_above _ _ _ _ _ hx) i hi]
        cases saddr <;> rfl
  | none =>
      by_cases hf : dev.flags &&& (c.IFF_LOOPBACK ||| c.IFF_NOARP) ≠ 0
      · rw [if_pos hf]
        refine ⟨_, _, rfl, rfl, rfl, ?_, ?_, ?_⟩
        · rw [← hp]
          exact header_tail_proto skb.mem _ (skb.data - ETH_HLEN) _ _
            (fun x hx => memset_above _ _ _ _ _ hx)
        · rw [← hn, ← hp]
          congr 1
          exact header_tail_proto skb.mem _ (skb.data - ETH_HLEN) _ _
            (fun x hx => memset_above _ _ _ _ _ hx)
        · intro i hi
          dsimp only
          rw [header_tail_source skb.mem _ (skb.data - ETH_HLEN) _ _
            (fun x hx => memset_above _ _ _ _ _ hx) i hi]
          cases saddr <;> rfl
      · rw [if_neg hf]
        refine ⟨_, _, rfl, rfl, rfl, ?_, ?_, ?_⟩
        · rw [← hp]
          exact header_tail_proto skb.mem _ (skb.data - ETH_HLEN) _ _ (fun x hx => rfl)
        · rw [← hn, ← hp]
          congr 1
          exact header_tail_proto skb.mem _ (skb.data - ETH_HLEN) _ _ (fun x hx => rfl)
        · intro i hi
          dsimp only
          rw [header_tail_source skb.mem _ (skb.data - ETH_HLEN) _ _ (fun x hx => rfl) i hi]
          cases saddr <;> rfl

/-- Witness of C8: an IPv4 header (`type = 0x0800`) pushed into 32 bytes of
headroom, with the device address as source. -/
theorem eth_header_proto_and_source_witness :
    ∃ ret skb1, eth_header linux_consts demoSkb (demoDev 0) 0x0800 none none 100
        = some (ret, skb1) ∧
      skb1.data = demoSkb.data - ETH_HLEN ∧ skb1.len = demoSkb.len + ETH_HLEN ∧
      load16 skb1.mem (skb1.data + 12)
        = (if 0x0800 ≠ linux_consts.ETH_P_802_3 ∧ 0x0800 ≠ linux_consts.ETH_P_802_2
           then htons 0x0800 else htons (100 % 2 ^ 16)) ∧
      ntohs (load16 skb1.mem (skb1.data + 12))
        = (if 0x0800 ≠ linux_consts.ETH_P_802_3 ∧ 0x0800 ≠ linux_consts.ETH_P_802_2
           then 0x0800 % 2 ^ 16 else 100 % 2 ^ 16) ∧
      ∀ i < ETH_ALEN, skb1.mem (skb1.data + 6 + i)
        = (match (none : Option (Nat → Nat)) with
           | some a => a i
           | none => (demoDev 0).dev_addr i) :=
  eth_header_proto_and_source linux_consts demoSkb (demoDev 0) 0x0800 100 none none
    (by decide)

/-- C9 (counterexample): on a loopback device (`IFF_LOOPBACK` set) a call with
`daddr == NULL` does not leave the destination bytes as they were: the six
bytes of headroom that become `h_dest` held `0xAA` before the call and hold `0`
after it, and the call returns `ETH_HLEN`. -/
theorem eth_header_loopback_counterexample :
    (List.range ETH_ALEN).map (fun i => demoSkb.mem (demoSkb.data - ETH_HLEN + i))
      = [0xAA, 0xAA, 0xAA, 0xAA, 0xAA, 0xAA] ∧
    (eth_header linux_consts demoSkb (demoDev linux_consts.IFF_LOOPBACK) 0x0800 none none 100).map
      (fun r => (r.1, r.2.data, h_dest_bytes r.2))
      = some ((14 : Int), demoSkb.data - ETH_HLEN, [0, 0, 0, 0, 0, 0]) := by
  constructor <;> decide

/-- C9 (amended): with `daddr != NULL` the six destination bytes of the pushed
header equal the six bytes at `daddr` and the function returns `ETH_HLEN` (14),
for every device.  With `daddr == NULL`, on a device with neither
`IFF_LOOPBACK` nor `IFF_NOARP` set the six destination bytes are left exactly
as they were in the buffer before the call (and the result is `-ETH_HLEN`); on
a device with one of these flags set they are set to zero and the result is
`ETH_HLEN`. -/
theorem eth_header_dest (c : Consts) (skb : sk_buff) (dev : net_device)
    (type len : Nat) (daddr saddr : Option (Nat → Nat)) (hroom : ETH_HLEN ≤ skb.data) :
    ∃ ret skb1, eth_header c skb dev type daddr saddr len = some (ret, skb1) ∧
      skb1.data = skb.data - ETH_HLEN ∧
      match daddr with
      | some d => ret = 14 ∧ ∀ i < ETH_ALEN, skb1.mem (skb1.data + i) = d i
      | none =>
        if dev.flags &&& (c.IFF_LOOPBACK ||| c.IFF_NOARP) = 0 then
          ret = -14 ∧ ∀ i < ETH_ALEN, skb1.mem (skb1.data + i) = skb.mem (skb.data - ETH_HLEN + i)
        else
          ret = 14 ∧ ∀ i < ETH_ALEN, skb1.mem (skb1.data + i) = 0 := by
  have hpush : skb_push skb ETH_HLEN
      = some { skb with data := skb.data - ETH_HLEN, len := skb.len + ETH_HLEN } := by
    simp [skb_push, hroom]
  unfold eth_header
  rw [hpush]
  dsimp only
  cases daddr with
  | some d =>
      refine ⟨_, _, rfl, rfl, rfl, ?_⟩
      intro i hi
      simp only [ETH_ALEN] at hi
      simp [memcpy, ETH_ALEN, hi]
  | none =>
      by_cases hf : dev.flags &&& (c.IFF_LOOPBACK ||| c.IFF_NOARP) = 0
      · rw [if_neg (not_not.mpr hf)]
        refine ⟨_, _, rfl, rfl, ?_⟩
        dsimp only
        rw [if_pos hf]
        refine ⟨rfl, ?_⟩
        intro i hi
        simp only [ETH_ALEN] at hi
        simp only [memcpy, store16, ETH_ALEN]
        rw [if_neg (by omega), if_neg (by omega), if_neg (by omega)]
      · rw [if_pos hf]
        refine ⟨_, _, rfl, rfl, ?_⟩
        dsimp only
        rw [if_neg hf]
        refine ⟨rfl, ?_⟩
        intro i hi
        simp only [ETH_ALEN] at hi
        simp [memset, ETH_ALEN, hi]

/-- Witness of C9 (amended): an ordinary device and `daddr == NULL`. -/
theorem eth_header_dest_witness :
    ∃ ret skb1, eth_header linux_consts demoSkb (demoDev 0) 0x0800 none none 100
        = some (ret, skb1) ∧
      skb1.data = demoSkb.data - ETH_HLEN ∧
      match (none : Option (Nat → Nat)) with
      | some d => ret = 14 ∧ ∀ i < ETH_ALEN, skb1.mem (skb1.data + i) = d i
      | none =>
        if (demoDev 0).flags &&& (linux_consts.IFF_LOOPBACK ||| linux_consts.IFF_NOARP) = 0 then
          ret = -14 ∧ ∀ i < ETH_ALEN,
            skb1.mem (skb1.data + i) = demoSkb.mem (demoSkb.data - ETH_HLEN + i)
        else
          ret = 14 ∧ ∀ i < ETH_ALEN, skb1.mem (skb1.data + i) = 0 :=
  eth_header_dest linux_consts demoSkb (demoDev 0) 0x0800 100 none none (by decide)

/-! ## `eth_type_trans` -/

/-- The type field is taken as a protocol type exactly when, read as a
big-endian number, it is at least `0x0600`. -/
theorem eth_proto_is_802_3_iff (mem : Nat → Nat) (a : Nat) :
    eth_proto_is_802_3 (load16 mem a)
      = decide (0x0600 ≤ 256 * (mem a % 256) + mem (a + 1) % 256) := by
  have h1 : htons 0x0600 = 6 := by decide
  have h2 : htons 0xFF00 = 2 ^ 8 - 1 := by decide
  have h3 : load16 mem a < 2 ^ 16 := by
    simp only [load16]; omega
  unfold eth_proto_is_802_3
  rw [h1, h2, Nat.and_pow_two_sub_one_eq_mod, Nat.mod_eq_of_lt h3]
  apply decide_eq_decide.mpr
  simp only [load16]
  omega

theorem load16_eq_ffff (mem : Nat → Nat) (a : Nat) :
    load16 mem a = 0xFFFF ↔ mem a % 256 = 0xFF ∧ mem (a + 1) % 256 = 0xFF := by
  simp only [load16]
  omega

/-- The value `eth_type_trans` returns, in terms of the tests it makes; the
packet type it records has no part in it. -/
theorem eth_type_trans_fst (c : Consts) (skb : sk_buff) (dev : net_device) :
    (eth_type_trans c skb dev).1 =
      if dev.uses_dsa then htons c.ETH_P_XDSA
      else if eth_proto_is_802_3 (load16 skb.mem (skb.data + 12)) then
        load16 skb.mem (skb.data + 12)
      else if (skb_pull_inline skb ETH_HLEN).len ≥ 2 ∧
          load16 skb.mem (skb_pull_inline skb ETH_HLEN).data = 0xFFFF then
        htons c.ETH_P_802_3
      else htons c.ETH_P_802_2 := by
  unfold eth_type_trans skb_reset_mac_header skb_pull_inline
  by_cases hlen : ETH_HLEN > skb.len <;> simp only [hlen, if_true, if_false] <;>
    split_ifs <;> rfl

/-- C10 (counterexample): the type field is not returned unchanged only when it
is at least `0x0600`.  On a device without DSA tagging, a frame whose type
field holds the bytes `00 04` (the length 4) and whose payload does not start
with `0xFF 0xFF` gets `htons(ETH_P_802_2)`, and that is the very value of its
type field, although 4 is below `0x0600`. -/
theorem eth_type_trans_length_counterexample :
    (demoDev 0).uses_dsa = false ∧
    256 * ((demoFrame 0 4).mem ((demoFrame 0 4).data + 12) % 256)
      + (demoFrame 0 4).mem ((demoFrame 0 4).data + 13) % 256 = 4 ∧
    (eth_type_trans linux_consts (demoFrame 0 4) (demoDev 0)).1
      = htons linux_consts.ETH_P_802_2 ∧
    (eth_type_trans linux_consts (demoFrame 0 4) (demoDev 0)).1
      = load16 (demoFrame 0 4).mem ((demoFrame 0 4).data + 12) ∧
    ¬ ((eth_type_trans linux_consts (demoFrame 0 4) (demoDev 0)).1
          = load16 (demoFrame 0 4).mem ((demoFrame 0 4).data + 12) ↔
        0x0600 ≤ 256 * ((demoFrame 0 4).mem ((demoFrame 0 4).data + 12) % 256)
          + (demoFrame 0 4).mem ((demoFrame 0 4).data + 13) % 256) := by
  decide

/-- C10 (amended): for a receiving device that does not use DSA tagging,
`eth_type_trans` returns the frame's type field `h_proto` unchanged when that
field, read as a big-endian number, is at least `0x0600` (it may return the
same value for a smaller field as well, when the constant below happens to
equal it); when the field is short enough to be a length
it returns `htons(ETH_P_802_3)` if the remaining payload (what is left of the
data once the 14-byte header is pulled: `skb->len - 14` bytes at
`skb->data + 14` for a frame that holds a whole header) has at least 2 bytes
and its first two bytes are `0xFF 0xFF`, and `htons(ETH_P_802_2)` otherwise.
For a DSA device it returns `htons(ETH_P_XDSA)` whatever the frame holds. -/
theorem eth_type_trans_protocol (c : Consts) (skb : sk_buff) (dev : net_device) :
    (skb_pull_inline skb ETH_HLEN).len
      = (if ETH_HLEN ≤ skb.len then skb.len - ETH_HLEN else skb.len) ∧
    (skb_pull_inline skb ETH_HLEN).data
      = (if ETH_HLEN ≤ skb.len then skb.data + ETH_HLEN else skb.data) ∧
    (eth_type_trans c skb dev).1 =
      if dev.uses_dsa then htons c.ETH_P_XDSA
      else if 0x0600 ≤ 256 * (skb.mem (skb.data + 12) % 256) + skb.mem (skb.data + 13) % 256 then
        load16 skb.mem (skb.data + 12)
      else if 2 ≤ (skb_pull_inline skb ETH_HLEN).len ∧
          skb.mem (skb_pull_inline skb ETH_HLEN).data % 256 = 0xFF ∧
          skb.mem ((skb_pull_inline skb ETH_HLEN).data + 1) % 256 = 0xFF then
        htons c.ETH_P_802_3
      else htons c.ETH_P_802_2 := by
  refine ⟨?_, ?_, ?_⟩
  · unfold skb_pull_inline
    by_cases h : ETH_HLEN ≤ skb.len
    · rw [if_neg (by omega), if_pos h]
    · rw [if_pos (by omega), if_neg h]
  · unfold skb_pull_inline
    by_cases h : ETH_HLEN ≤ skb.len
    · rw [if_neg (by omega), if_pos h]
    · rw [if_pos (by omega), if_neg h]
  · rw [eth_type_trans_fst, eth_proto_is_802_3_iff]
    simp only [decide_eq_true_eq, load16_eq_ffff, ge_iff_le]

/-! ## `eth_change_mtu` -/

/-- C15: for a device whose `netdev_ops` provides no extended
`ndo_change_mtu`, `eth_change_mtu(dev, new_mtu)` returns `-EINVAL` and leaves
`dev->mtu` (the whole device) unchanged if and only if `new_mtu < 68` or
`new_mtu > ETH_DATA_LEN` (1500), so a jumbo size is never accepted; for every
other `new_mtu` it sets `dev->mtu` to `new_mtu`, leaves the rest of the device
as it was, and returns 0. -/
theorem eth_change_mtu_range (dev : net_device) (new_mtu : Int)
    (hext : dev.ndo_ext_change_mtu = false) :
    (((eth_change_mtu dev new_mtu).1 = -EINVAL ∧ (eth_change_mtu dev new_mtu).2.mtu = dev.mtu)
      ↔ (new_mtu < 68 ∨ new_mtu > ETH_DATA_LEN)) ∧
    ((new_mtu < 68 ∨ new_mtu > ETH_DATA_LEN) → eth_change_mtu dev new_mtu = (-EINVAL, dev)) ∧
    (¬ (new_mtu < 68 ∨ new_mtu > ETH_DATA_LEN) →
      (eth_change_mtu dev new_mtu).1 = 0 ∧
      ((eth_change_mtu dev new_mtu).2.mtu : Int) = new_mtu ∧
      eth_change_mtu dev new_mtu = (0, { dev with mtu := new_mtu.toNat })) := by
  have hE : ETH_DATA_LEN = 1500 := rfl
  rw [hE]
  have hc : ¬ (dev.ndo_ext_change_mtu = true) := by
    rw [hext]; decide
  have hbad : (new_mtu < 68 ∨ new_mtu > 1500) → eth_change_mtu dev new_mtu = (-EINVAL, dev) := by
    intro h
    unfold eth_change_mtu
    rw [if_neg hc, if_pos (show new_mtu < 68 ∨ new_mtu > ETH_DATA_LEN from h)]
  have hgood : ¬ (new_mtu < 68 ∨ new_mtu > 1500) →
      eth_change_mtu dev new_mtu = (0, { dev with mtu := new_mtu.toNat }) := by
    intro h
    unfold eth_change_mtu
    rw [if_neg hc, if_neg (show ¬ (new_mtu < 68 ∨ new_mtu > ETH_DATA_LEN) from h)]
    have h3 : to_u32 new_mtu = new_mtu.toNat := by
      unfold to_u32
      rw [Int.emod_eq_of_lt (by omega) (by omega)]
    rw [h3]
  refine ⟨?_, hbad, ?_⟩
  · constructor
    · rintro ⟨h1, _⟩
      by_contra hn
      rw [hgood hn] at h1
      simp [EINVAL] at h1
    · intro h
      rw [hbad h]
      exact ⟨rfl, rfl⟩
  · intro hn
    rw [hgood hn]
    refine ⟨rfl, ?_, rfl⟩
    show ((new_mtu.toNat : Nat) : Int) = new_mtu
    exact Int.toNat_of_nonneg (by omega)

/-- Witness of C15: a jumbo size (9000) on an ordinary Ethernet device. -/
theorem eth_change_mtu_range_witness :
    (((eth_change_mtu (demoDev 0) 9000).1 = -EINVAL ∧
        (eth_change_mtu (demoDev 0) 9000).2.mtu = (demoDev 0).mtu)
      ↔ ((9000 : Int) < 68 ∨ (9000 : Int) > ETH_DATA_LEN)) ∧
    (((9000 : Int) < 68 ∨ (9000 : Int) > ETH_DATA_LEN) →
      eth_change_mtu (demoDev 0) 9000 = (-EINVAL, demoDev 0)) ∧
    (¬ ((9000 : Int) < 68 ∨ (9000 : Int) > ETH_DATA_LEN) →
      (eth_change_mtu (demoDev 0) 9000).1 = 0 ∧
      ((eth_change_mtu (demoDev 0) 9000).2.mtu : Int) = 9000 ∧
      eth_change_mtu (demoDev 0) 9000
        = (0, { demoDev 0 with mtu := (9000 : Int).toNat })) :=
  eth_change_mtu_range (demoDev 0) 9000 rfl

end Eth

namespace NospecBranch

/-! ## Traces of `__FILL_RETURN_BUFFER` -/

theorem trace_step (bits base : Nat) (code : List Instr) (n : Nat) (s t : Machine)
    (h : step bits base code s = some t) :
    trace bits base code (n + 1) s = s.pc :: trace bits base code n t := by
  simp only [trace, h]

theorem trace_add (bits base : Nat) (code : List Instr) (m n : Nat) (s t : Machine)
    (h : run bits base code m s = some t) :
    trace bits base code (m + n) s = trace bits base code m s ++ trace bits base code n t := by
  induction m generalizing s with
  | zero =>
      simp only [run, Option.some.injEq] at h
      subst h
      simp [trace]
  | succ m ih =>
      rw [show m + 1 + n = (m + n) + 1 by omega]
      simp only [run] at h
      cases hs : step bits base code s with
      | none => simp [hs] at h
      | some u =>
          simp only [hs, Option.some_bind] at h
          rw [trace_step _ _ _ _ _ _ hs, trace_step _ _ _ _ _ _ hs, ih u h]
          rfl

/-- The addresses executed by one pass of the loop. -/
theorem fill_pass_trace (bits base : Nat) (reg : Reg) (nr : Nat) (s : Machine)
    (hpc : s.pc = base + 1) :
    trace bits base (__FILL_RETURN_BUFFER bits base reg nr Reg.rsp) 4 s
      = [base + 1, base + 5, base + 9, base + 10] := by
  have e1 := step_at bits base (__FILL_RETURN_BUFFER bits base reg nr Reg.rsp) s 1
    (Instr.call (base + 5)) hpc rfl
  have e2 := step_at bits base (__FILL_RETURN_BUFFER bits base reg nr Reg.rsp)
    (exec bits (Instr.call (base + 5)) s) 5 (Instr.call (base + 9)) rfl rfl
  have e3 := step_at bits base (__FILL_RETURN_BUFFER bits base reg nr Reg.rsp)
    (exec bits (Instr.call (base + 9)) (exec bits (Instr.call (base + 5)) s)) 9
    (Instr.dec reg) rfl rfl
  have e4 := step_at bits base (__FILL_RETURN_BUFFER bits base reg nr Reg.rsp)
    (exec bits (Instr.dec reg)
      (exec bits (Instr.call (base + 9)) (exec bits (Instr.call (base + 5)) s))) 10
    (Instr.jnz (base + 1)) rfl rfl
  rw [trace_step _ _ _ _ _ _ e1, trace_step _ _ _ _ _ _ e2, trace_step _ _ _ _ _ _ e3,
    trace_step _ _ _ _ _ _ e4, hpc]
  rfl

/-- The addresses executed by the whole loop entered with the counter at `k + 1`. -/
theorem fill_loop_trace (bits base : Nat) (reg : Reg) (nr : Nat) (hreg : reg ≠ Reg.rsp) :
    ∀ (k : Nat) (s : Machine), s.pc = base + 1 → s.regs reg = k + 1 → k + 1 < 2 ^ bits →
    trace bits base (__FILL_RETURN_BUFFER bits base reg nr Reg.rsp) (4 * (k + 1)) s
      = (List.replicate (k + 1) [base + 1, base + 5, base + 9, base + 10]).flatten := by
  intro k
  induction k with
  | zero =>
      intro s hpc _ _
      rw [fill_pass_trace bits base reg nr s hpc]
      rfl
  | succ k ih =>
      intro s hpc hk hlt
      obtain ⟨t, h1, h2, h3, _, _⟩ := fill_pass bits base reg nr (k + 1) s hreg hpc hk hlt
      have hpc2 : t.pc = base + 1 := by simpa using h2
      rw [show 4 * (k + 1 + 1) = 4 + 4 * (k + 1) by omega, trace_add _ _ _ _ _ _ _ h1,
        fill_pass_trace bits base reg nr s hpc, ih t hpc2 h3 (by omega)]
      have hrep : (List.replicate (k + 1 + 1) [base + 1, base + 5, base + 9, base + 10]).flatten
          = [base + 1, base + 5, base + 9, base + 10]
            ++ (List.replicate (k + 1) [base + 1, base + 5, base + 9, base + 10]).flatten := by
        rw [List.replicate_succ, List.flatten_cons]
      rw [hrep]

theorem flatten_replicate_countP (p : Nat → Bool) (l : List Nat) (k : Nat) :
    (List.replicate k l).flatten.countP p = k * l.countP p := by
  induction k with
  | zero => simp
  | succ k ih =>
      rw [List.replicate_succ, List.flatten_cons, List.countP_append, ih]
      ring

theorem mem_flatten_replicate (l : List Nat) (k x : Nat)
    (h : x ∈ (List.replicate k l).flatten) : x ∈ l := by
  rw [List.mem_flatten] at h
  obtain ⟨l1, h1, h2⟩ := h
  rw [List.mem_replicate] at h1
  rw [← h1.2]
  exact h2

/-- C12: for every even `nr >= 2` whose half fits the counter register,
architectural execution of `__FILL_RETURN_BUFFER(reg, nr, sp)` terminates: after
`2 + 4 * (nr / 2)` instructions control is at the first address after the
sequence.  The instructions executed are the `mov`, then `nr / 2` passes of the
loop (`771: call`, `772: call`, `774: dec`, `jnz`), then the `add`: exactly
`nr` of them are calls, the `jnz` that closes a pass is executed exactly
`nr / 2` times, none of them is an instruction of the speculation traps `773`
and `775`, and the counter register ends equal to 0. -/
theorem fill_return_buffer_trace (bits base nr : Nat) (reg : Reg) (s : Machine)
    (heven : nr % 2 = 0) (hnr : 2 ≤ nr) (hfit : nr / 2 < 2 ^ bits)
    (hreg : reg ≠ Reg.rsp) (hpc : s.pc = base) :
    ∃ fin,
      run bits base (__FILL_RETURN_BUFFER bits base reg nr Reg.rsp) (2 + 4 * (nr / 2)) s
        = some fin ∧
      fin.pc = base + (__FILL_RETURN_BUFFER bits base reg nr Reg.rsp).length ∧
      step bits base (__FILL_RETURN_BUFFER bits base reg nr Reg.rsp) fin = none ∧
      fin.regs reg = 0 ∧
      trace bits base (__FILL_RETURN_BUFFER bits base reg nr Reg.rsp) (2 + 4 * (nr / 2)) s
        = base :: ((List.replicate (nr / 2) [base + 1, base + 5, base + 9, base + 10]).flatten
            ++ [base + 11]) ∧
      (trace bits base (__FILL_RETURN_BUFFER bits base reg nr Reg.rsp)
        (2 + 4 * (nr / 2)) s).countP
          (isCallAt base (__FILL_RETURN_BUFFER bits base reg nr Reg.rsp)) = nr ∧
      (trace bits base (__FILL_RETURN_BUFFER bits base reg nr Reg.rsp)
        (2 + 4 * (nr / 2)) s).count (base + 10) = nr / 2 ∧
      ∀ pc ∈ trace bits base (__FILL_RETURN_BUFFER bits base reg nr Reg.rsp)
        (2 + 4 * (nr / 2)) s, pc ∉ fill_trap_addresses base := by
  obtain ⟨k, hk⟩ : ∃ k, nr / 2 = k + 1 := ⟨nr / 2 - 1, by omega⟩
  have hlt : k + 1 < 2 ^ bits := by omega
  have hreg2 : Reg.rsp ≠ reg := fun h => hreg h.symm
  have hpc0 : s.pc = base + 0 := hpc
  have e0 := step_at bits base (__FILL_RETURN_BUFFER bits base reg nr Reg.rsp) s 0
    (Instr.mov_imm (nr / 2) reg) hpc0 rfl
  have r0 : run bits base (__FILL_RETURN_BUFFER bits base reg nr Reg.rsp) 1 s
      = some (exec bits (Instr.mov_imm (nr / 2) reg) s) := by
    rw [run_step _ _ _ _ _ _ e0]; rfl
  have hk0 : (exec bits (Instr.mov_imm (nr / 2) reg) s).regs reg = k + 1 := by
    simp [exec, setReg, hk, Nat.mod_eq_of_lt hlt]
  have hpc1 : (exec bits (Instr.mov_imm (nr / 2) reg) s).pc = base + 1 := by
    simp [exec, hpc]
  obtain ⟨mid, m1, m2, m3, _, _⟩ := fill_loop bits base reg nr hreg k
    (exec bits (Instr.mov_imm (nr / 2) reg) s) hpc1 hk0 hlt
  have tloop := fill_loop_trace bits base reg nr hreg k
    (exec bits (Instr.mov_imm (nr / 2) reg) s) hpc1 hk0 hlt
  have e1 := step_at bits base (__FILL_RETURN_BUFFER bits base reg nr Reg.rsp) mid 11
    (Instr.add_imm ((bits / 8) * nr) Reg.rsp) m2 rfl
  have rfin : run bits base (__FILL_RETURN_BUFFER bits base reg nr Reg.rsp)
      (2 + 4 * (nr / 2)) s
      = some (exec bits (Instr.add_imm ((bits / 8) * nr) Reg.rsp) mid) := by
    rw [show 2 + 4 * (nr / 2) = 1 + (4 * (k + 1) + 1) by omega, run_add _ _ _ _ _ _ _ r0,
      run_add _ _ _ _ _ _ _ m1, run_step _ _ _ _ _ _ e1]
    rfl
  have htr : trace bits base (__FILL_RETURN_BUFFER bits base reg nr Reg.rsp)
      (2 + 4 * (nr / 2)) s
      = base :: ((List.replicate (nr / 2) [base + 1, base + 5, base + 9, base + 10]).flatten
          ++ [base + 11]) := by
    rw [show 2 + 4 * (nr / 2) = (4 * (k + 1) + 1) + 1 by omega, trace_step _ _ _ _ _ _ e0,
      trace_add _ _ _ _ _ _ _ m1, tloop, trace_step _ _ _ _ _ _ e1, hpc, m2, hk]
    rfl
  refine ⟨exec bits (Instr.add_imm ((bits / 8) * nr) Reg.rsp) mid, rfin, ?_, ?_, ?_, htr,
    ?_, ?_, ?_⟩
  · simp [exec, m2, __FILL_RETURN_BUFFER]
  · have hfin : (exec bits (Instr.add_imm ((bits / 8) * nr) Reg.rsp) mid).pc = base + 12 := by
      simp [exec, m2]
    simp only [step, hfin, fetch_at]
    rfl
  · simp [exec, setReg, hreg, m3]
  · rw [htr, List.countP_cons, List.countP_append, flatten_replicate_countP]
    have c1 : isCallAt base (__FILL_RETURN_BUFFER bits base reg nr Reg.rsp) (base + 0)
        = false := by
      simp only [isCallAt, fetch_at]; rfl
    rw [Nat.add_zero] at c1
    have c2 : List.countP (isCallAt base (__FILL_RETURN_BUFFER bits base reg nr Reg.rsp))
        [base + 1, base + 5, base + 9, base + 10] = 2 := by
      simp only [List.countP_cons, List.countP_nil, isCallAt, fetch_at]; rfl
    have c3 : List.countP (isCallAt base (__FILL_RETURN_BUFFER bits base reg nr Reg.rsp))
        [base + 11] = 0 := by
      simp only [List.countP_cons, List.countP_nil, isCallAt, fetch_at]; rfl
    rw [c1, c2, c3]
    simp
    omega
  · rw [htr]
    simp only [List.count, List.countP_cons, List.countP_append, flatten_replicate_countP]
    simp
  · intro pc hmem
    rw [htr] at hmem
    simp only [List.mem_cons, List.mem_append, List.mem_singleton, List.not_mem_nil,
      or_false] at hmem
    have hcases : pc = base ∨ pc = base + 1 ∨ pc = base + 5 ∨ pc = base + 9 ∨ pc = base + 10
        ∨ pc = base + 11 := by
      rcases hmem with h | h | h
      · exact Or.inl h
      · have := mem_flatten_replicate _ _ _ h
        simp only [List.mem_cons, List.mem_singleton, List.not_mem_nil, or_false] at this
        omega
      · omega
    simp only [fill_trap_addresses, List.mem_cons, List.mem_singleton, List.not_mem_nil,
      or_false]
    omega

/-- Witness of C12: `fill_RSB` on x86-64 (`nr = 32`, counter in `%rax`). -/
theorem fill_return_buffer_trace_witness :
    ∃ fin,
      run 64 0x400 (__FILL_RETURN_BUFFER 64 0x400 Reg.rax 32 Reg.rsp) (2 + 4 * (32 / 2))
        (demoMachine 0x400) = some fin ∧
      fin.pc = 0x400 + (__FILL_RETURN_BUFFER 64 0x400 Reg.rax 32 Reg.rsp).length ∧
      step 64 0x400 (__FILL_RETURN_BUFFER 64 0x400 Reg.rax 32 Reg.rsp) fin = none ∧
      fin.regs Reg.rax = 0 ∧
      trace 64 0x400 (__FILL_RETURN_BUFFER 64 0x400 Reg.rax 32 Reg.rsp) (2 + 4 * (32 / 2))
        (demoMachine 0x400)
        = 0x400 :: ((List.replicate (32 / 2)
            [0x400 + 1, 0x400 + 5, 0x400 + 9, 0x400 + 10]).flatten ++ [0x400 + 11]) ∧
      (trace 64 0x400 (__FILL_RETURN_BUFFER 64 0x400 Reg.rax 32 Reg.rsp) (2 + 4 * (32 / 2))
        (demoMachine 0x400)).countP
          (isCallAt 0x400 (__FILL_RETURN_BUFFER 64 0x400 Reg.rax 32 Reg.rsp)) = 32 ∧
      (trace 64 0x400 (__FILL_RETURN_BUFFER 64 0x400 Reg.rax 32 Reg.rsp) (2 + 4 * (32 / 2))
        (demoMachine 0x400)).count (0x400 + 10) = 32 / 2 ∧
      ∀ pc ∈ trace 64 0x400 (__FILL_RETURN_BUFFER 64 0x400 Reg.rax 32 Reg.rsp)
        (2 + 4 * (32 / 2)) (demoMachine 0x400), pc ∉ fill_trap_addresses 0x400 :=
  fill_return_buffer_trace 64 0x400 32 Reg.rax (demoMachine 0x400) (by decide) (by decide)
    (by decide) (by decide) rfl

/-! ## Speculation traps -/

/-- Execution that starts inside a speculation trap stays inside it. -/
theorem trap_loop (bits base : Nat) (code : List Instr) (a : Nat)
    (htrap : isTrapAt base code a) :
    ∀ (n : Nat) (u : Machine), (u.pc = a ∨ u.pc = a + 1 ∨ u.pc = a + 2) →
      ∃ v, run bits base code n u = some v ∧ (v.pc = a ∨ v.pc = a + 1 ∨ v.pc = a + 2) := by
  obtain ⟨h0, h1, h2⟩ := htrap
  intro n
  induction n with
  | zero => intro u hu; exact ⟨u, rfl, hu⟩
  | succ n ih =>
      intro u hu
      rcases hu with hu | hu | hu
      · have e : step bits base code u = some (exec bits Instr.pause u) := by
          simp only [step, hu, h0, Option.map_some']
        rw [run_step _ _ _ _ _ _ e]
        exact ih _ (Or.inr (Or.inl (by simp [exec, hu])))
      · have e : step bits base code u = some (exec bits Instr.lfence u) := by
          simp only [step, hu, h1, Option.map_some']
        rw [run_step _ _ _ _ _ _ e]
        exact ih _ (Or.inr (Or.inr (by simp [exec, hu])))
      · have e : step bits base code u = some (exec bits (Instr.jmp a) u) := by
          simp only [step, hu, h2, Option.map_some']
        rw [run_step _ _ _ _ _ _ e]
        exact ih _ (Or.inl rfl)

/-- The calls of `__FILL_RETURN_BUFFER` are the instructions at `771` and `772`. -/
theorem fill_call_index (bits base nr : Nat) (reg : Reg) (i tgt : Nat)
    (h : (__FILL_RETURN_BUFFER bits base reg nr Reg.rsp).get? i = some (Instr.call tgt)) :
    i = 1 ∨ i = 5 := by
  by_cases hi : i < 12
  · interval_cases i <;> simp [__FILL_RETURN_BUFFER] at h ⊢
  · have : (__FILL_RETURN_BUFFER bits base reg nr Reg.rsp).get? i = none :=
      List.get?_eq_none.mpr (by simp [__FILL_RETURN_BUFFER]; omega)
    rw [this] at h
    cases h

/-- The only call of `RETPOLINE_JMP` is its first instruction. -/
theorem retpoline_call_index (base : Nat) (reg : Reg) (i tgt : Nat)
    (h : (RETPOLINE_JMP base reg).get? i = some (Instr.call tgt)) : i = 0 := by
  by_cases hi : i < 6
  · interval_cases i <;> simp [RETPOLINE_JMP] at h ⊢
  · have : (RETPOLINE_JMP base reg).get? i = none :=
      List.get?_eq_none.mpr (by simp [RETPOLINE_JMP]; omega)
    rw [this] at h
    cases h

theorem fetch_some_index (base : Nat) (code : List Instr) (pc : Nat) (ins : Instr)
    (h : fetch base code pc = some ins) :
    ∃ i, pc = base + i ∧ code.get? i = some ins := by
  unfold fetch at h
  by_cases hb : base ≤ pc
  · rw [if_pos hb] at h
    exact ⟨pc - base, by omega, h⟩
  · rw [if_neg hb] at h
    cases h

/-- C13: every return address pushed by a call inside `__FILL_RETURN_BUFFER`
(the calls at `771` and `772`) and by the call inside `RETPOLINE_JMP` is the
address of a speculation trap whose code is exactly
`pause; lfence; jmp <that address>`; and execution started at the pushed
address stays inside that three-instruction loop for any number of steps: it
never stops and never reaches an instruction outside it. -/
theorem pushed_return_address_is_trap (bits base nr : Nat) (reg : Reg) (code : List Instr)
    (s : Machine) (tgt : Nat)
    (hcode : code = __FILL_RETURN_BUFFER bits base reg nr Reg.rsp ∨
      code = RETPOLINE_JMP base reg)
    (hcall : fetch base code s.pc = some (Instr.call tgt)) :
    ∃ t, step bits base code s = some t ∧
      t.mem (t.regs Reg.rsp) = s.pc + 1 ∧
      isTrapAt base code (s.pc + 1) ∧
      ∀ u : Machine, u.pc = t.mem (t.regs Reg.rsp) → ∀ n : Nat,
        ∃ v, run bits base code n u = some v ∧
          (v.pc = s.pc + 1 ∨ v.pc = s.pc + 2 ∨ v.pc = s.pc + 3) := by
  have hstep : step bits base code s = some (exec bits (Instr.call tgt) s) := by
    simp only [step, hcall, Option.map_some']
  have hpush : (exec bits (Instr.call tgt) s).mem ((exec bits (Instr.call tgt) s).regs Reg.rsp)
      = s.pc + 1 := by
    simp [exec, push, setReg, setMem]
  have htrap : isTrapAt base code (s.pc + 1) := by
    obtain ⟨i, hi, hget⟩ := fetch_some_index base code s.pc _ hcall
    rcases hcode with hc | hc
    · subst hc
      rcases fill_call_index bits base nr reg i tgt hget with h | h
      · subst h
        rw [hi]
        refine ⟨?_, ?_, ?_⟩
        · rw [show base + 1 + 1 = base + 2 by omega, fetch_at]; rfl
        · rw [show base + 1 + 1 + 1 = base + 3 by omega, fetch_at]; rfl
        · rw [show base + 1 + 1 + 2 = base + 4 by omega, fetch_at]; rfl
      · subst h
        rw [hi]
        refine ⟨?_, ?_, ?_⟩
        · rw [show base + 5 + 1 = base + 6 by omega, fetch_at]; rfl
        · rw [show base + 5 + 1 + 1 = base + 7 by omega, fetch_at]; rfl
        · rw [show base + 5 + 1 + 2 = base + 8 by omega, fetch_at]; rfl
    · subst hc
      have h := retpoline_call_index base reg i tgt hget
      subst h
      rw [hi]
      refine ⟨?_, ?_, ?_⟩
      · rw [show base + 0 + 1 = base + 1 by omega, fetch_at]; rfl
      · rw [show base + 0 + 1 + 1 = base + 2 by omega, fetch_at]; rfl
      · rw [show base + 0 + 1 + 2 = base + 3 by omega, fetch_at]; rfl
  refine ⟨exec bits (Instr.call tgt) s, hstep, hpush, htrap, ?_⟩
  intro u hu n
  rw [hpush] at hu
  obtain ⟨v, hv, hpcv⟩ := trap_loop bits base code (s.pc + 1) htrap n u (Or.inl hu)
  exact ⟨v, hv, by omega⟩

/-- Witness of C13: the first call (`771`) of `fill_RSB` on x86-64. -/
theorem pushed_return_address_is_trap_witness :
    ∃ t, step 64 0x400 (__FILL_RETURN_BUFFER 64 0x400 Reg.rax 32 Reg.rsp) (demoMachine 0x401)
        = some t ∧
      t.mem (t.regs Reg.rsp) = (demoMachine 0x401).pc + 1 ∧
      isTrapAt 0x400 (__FILL_RETURN_BUFFER 64 0x400 Reg.rax 32 Reg.rsp)
        ((demoMachine 0x401).pc + 1) ∧
      ∀ u : Machine, u.pc = t.mem (t.regs Reg.rsp) → ∀ n : Nat,
        ∃ v, run 64 0x400 (__FILL_RETURN_BUFFER 64 0x400 Reg.rax 32 Reg.rsp) n u = some v ∧
          (v.pc = (demoMachine 0x401).pc + 1 ∨ v.pc = (demoMachine 0x401).pc + 2 ∨
            v.pc = (demoMachine 0x401).pc + 3) :=
  pushed_return_address_is_trap 64 0x400 32 Reg.rax
    (__FILL_RETURN_BUFFER 64 0x400 Reg.rax 32 Reg.rsp) (demoMachine 0x401) 0x405
    (Or.inl rfl) (by decide)

/-! ## Patch sites -/

/-- C14: for each of the three patch sites the header registers with
`altinstruction_entry`, the encoded byte length of the replacement span
(`664b-663b`) is at most the encoded byte length of the default span
(`662b-661b`) under the standard x86-64 encodings.
`FILL_RETURN_BUFFER_CLOBBER`: 43 bytes of no-ops against 43 bytes of
`__FILL_RETURN_BUFFER`; `__JMP_NOSPEC reg`: `lfence; jmp *reg` (5 or 6 bytes)
against the 17 bytes of `RETPOLINE_JMP`; `__CALL_NOSPEC reg`:
`lfence; call *reg` (5 or 6 bytes) against the 24 bytes of `RETPOLINE_CALL`.
The sites are those of the macros `__JMP_NOSPEC` and `__CALL_NOSPEC`. -/
theorem replacement_fits_default_span (base : Nat) (reg : Reg) (amd : Bool) :
    span_length (FILL_RETURN_BUFFER_CLOBBER base reg).repl = 43 ∧
    span_length (FILL_RETURN_BUFFER_CLOBBER base reg).orig = 43 ∧
    span_length (FILL_RETURN_BUFFER_CLOBBER base reg).repl
      ≤ span_length (FILL_RETURN_BUFFER_CLOBBER base reg).orig ∧
    span_length (__JMP_NOSPEC_site base reg).orig = 17 ∧
    span_length (__JMP_NOSPEC_site base reg).repl = (if needsRex reg then 6 else 5) ∧
    span_length (__JMP_NOSPEC_site base reg).repl
      ≤ span_length (__JMP_NOSPEC_site base reg).orig ∧
    span_length (__CALL_NOSPEC_site base reg).orig = 24 ∧
    span_length (__CALL_NOSPEC_site base reg).repl = (if needsRex reg then 6 else 5) ∧
    span_length (__CALL_NOSPEC_site base reg).repl
      ≤ span_length (__CALL_NOSPEC_site base reg).orig ∧
    __JMP_NOSPEC base amd reg
      = ALTERNATIVE amd (__JMP_NOSPEC_site base reg).orig (__JMP_NOSPEC_site base reg).repl ∧
    __CALL_NOSPEC base amd reg
      = ALTERNATIVE amd (__CALL_NOSPEC_site base reg).orig (__CALL_NOSPEC_site base reg).repl := by
  have hf1 : span_length (FILL_RETURN_BUFFER_CLOBBER base reg).repl = 43 := rfl
  have hf2 : span_length (FILL_RETURN_BUFFER_CLOBBER base reg).orig = 43 := by
    simp [span_length, FILL_RETURN_BUFFER_CLOBBER, __FILL_RETURN_BUFFER, encoded_length,
      RSB_CLEAR_LOOPS]
  have hj1 : span_length (__JMP_NOSPEC_site base reg).orig = 17 := by
    simp [span_length, __JMP_NOSPEC_site, RETPOLINE_JMP, encoded_length]
  have hj2 : span_length (__JMP_NOSPEC_site base reg).repl
      = (if needsRex reg then 6 else 5) := by
    cases reg <;> rfl
  have hc1 : span_length (__CALL_NOSPEC_site base reg).orig = 24 := by
    simp [span_length, __CALL_NOSPEC_site, RETPOLINE_CALL, RETPOLINE_JMP, encoded_length]
  have hc2 : span_length (__CALL_NOSPEC_site base reg).repl
      = (if needsRex reg then 6 else 5) := by
    cases reg <;> rfl
  refine ⟨hf1, hf2, by omega, hj1, hj2, ?_, hc1, hc2, ?_, rfl, rfl⟩
  · rw [hj1, hj2]; split <;> decide
  · rw [hc1, hc2]; split <;> decide

end NospecBranch

namespace DmLinear

/-! ## `linear_prepare_ioctl` -/

theorem to_u64_shift (size : Int) (h0 : 0 ≤ size) (h1 : size < 2 ^ 63) :
    (to_u64 (size >>> SECTOR_SHIFT) : Int) = size >>> SECTOR_SHIFT ∧
    size >>> SECTOR_SHIFT = size / 512 := by
  have h2 : size >>> SECTOR_SHIFT = size / 512 := by
    rw [Int.shiftRight_eq_div_pow]; rfl
  refine ⟨?_, h2⟩
  rw [h2]
  unfold to_u64
  have h3 : 0 ≤ size / 512 := Int.ediv_nonneg h0 (by decide)
  have h4 : size / 512 < 2 ^ 64 := by omega
  rw [Int.emod_eq_of_lt h3 h4, Int.toNat_of_nonneg h3]

/-- C11: `linear_prepare_ioctl` always stores the underlying block device in
`*bdev`, and returns 0 if and only if the mapping's start offset `lc->start` is
0 and the target length `ti->len` equals the size of the underlying device in
512-byte sectors (its byte size shifted right by `SECTOR_SHIFT`); in every
other case it returns 1. -/
theorem linear_prepare_ioctl_passes_iff_exact (ti : dm_target)
    (h0 : 0 ≤ ti.priv.dev.bdev.bd_inode.i_size)
    (h1 : ti.priv.dev.bdev.bd_inode.i_size < 2 ^ 63) :
    (linear_prepare_ioctl ti).2 = ti.priv.dev.bdev ∧
    ((linear_prepare_ioctl ti).1 = 0 ↔
      ti.priv.start = 0 ∧
        (ti.len : Int) = ti.priv.dev.bdev.bd_inode.i_size >>> SECTOR_SHIFT) ∧
    (¬ (ti.priv.start = 0 ∧
        (ti.len : Int) = ti.priv.dev.bdev.bd_inode.i_size >>> SECTOR_SHIFT) →
      (linear_prepare_ioctl ti).1 = 1) ∧
    ti.priv.dev.bdev.bd_inode.i_size >>> SECTOR_SHIFT
      = ti.priv.dev.bdev.bd_inode.i_size / 512 := by
  obtain ⟨hu, hdiv⟩ := to_u64_shift _ h0 h1
  have hconv : ti.len = to_u64 (i_size_read ti.priv.dev.bdev.bd_inode >>> SECTOR_SHIFT) ↔
      (ti.len : Int) = ti.priv.dev.bdev.bd_inode.i_size >>> SECTOR_SHIFT := by
    unfold i_size_read
    constructor
    · intro h
      rw [h]; exact hu
    · intro h
      exact Int.ofNat_inj.mp (h.trans hu.symm)
  refine ⟨?_, ?_, ?_, hdiv⟩
  · unfold linear_prepare_ioctl
    dsimp only
    split <;> rfl
  · unfold linear_prepare_ioctl
    dsimp only
    split
    · rename_i h
      constructor
      · intro h'; simp at h'
      · rintro ⟨hs, hl⟩
        rcases h with h | h
        · exact absurd hs h
        · exact absurd (hconv.mpr hl) h
    · rename_i h
      simp only [not_or, not_not] at h
      exact ⟨fun _ => ⟨h.1, hconv.mp h.2⟩, fun _ => rfl⟩
  · intro hn
    unfold linear_prepare_ioctl
    dsimp only
    split
    · rfl
    · rename_i h
      simp only [not_or, not_not] at h
      exact absurd ⟨h.1, hconv.mp h.2⟩ hn

/-- Witness of C11: a mapping of the whole of a 1 MiB device (2048 sectors)
from offset 0. -/
theorem linear_prepare_ioctl_passes_iff_exact_witness :
    (linear_prepare_ioctl (demoTarget 0 2048 1048576)).2
      = (demoTarget 0 2048 1048576).priv.dev.bdev ∧
    ((linear_prepare_ioctl (demoTarget 0 2048 1048576)).1 = 0 ↔
      (demoTarget 0 2048 1048576).priv.start = 0 ∧
        ((demoTarget 0 2048 1048576).len : Int)
          = (demoTarget 0 2048 1048576).priv.dev.bdev.bd_inode.i_size >>> SECTOR_SHIFT) ∧
    (¬ ((demoTarget 0 2048 1048576).priv.start = 0 ∧
        ((demoTarget 0 2048 1048576).len : Int)
          = (demoTarget 0 2048 1048576).priv.dev.bdev.bd_inode.i_size >>> SECTOR_SHIFT) →
      (linear_prepare_ioctl (demoTarget 0 2048 1048576)).1 = 1) ∧
    (demoTarget 0 2048 1048576).priv.dev.bdev.bd_inode.i_size >>> SECTOR_SHIFT
      = (demoTarget 0 2048 1048576).priv.dev.bdev.bd_inode.i_size / 512 :=
  linear_prepare_ioctl_passes_iff_exact (demoTarget 0 2048 1048576) (by decide) (by decide)

end DmLinear
